import Mathlib

/-!
# Tetris engine of `src/tetris/main.go`

A shallow embedding of the game engine: the board array, the piece table, collision,
movement, rotation, locking, line clearing, spawning and the input handling of the main loop.

Conventions of the embedding.

* Go `int` values are `Int`; loop counters that start at `0` and count upwards are `Nat`.
  The arithmetic is exact: the only sums are a table offset `0..3` or a step `±1` added to a
  coordinate, and `trot + 1`; in every state the engine reaches the coordinates lie in
  `-3..19` and `trot` below 4, and for an arbitrary machine `int` origin the wrapped sum and
  the exact sum pass the bounds test of `collides` alike (`wrapInt_add_offset`).
* The global `board [GRID_W*GRID_H]uint8` is a function on `Fin 200`; a cell is a `Nat`
  and the one conversion `uint8(..)` in the source is an explicit `% 256`.
* Every array or slice access is fallible: an index out of range is the Go runtime panic
  and is `none` here. All engine operations therefore live in `Option`.
* The globals `board` and `cur` are passed explicitly as a `Game`.
* The two sources of nondeterminism, `rand.Intn` and the pin / clock samples of the main
  loop, are arguments.
-/

namespace Tetris

/-! ## Constants and data model -/

abbrev GRID_W : Nat := 10
abbrev GRID_H : Nat := 20

/-- The global `board`: `GRID_W * GRID_H = 200` cells, `0` empty, `> 0` a colour index. -/
abbrev Board := Fin 200 → Nat

/-- Tetromino table `pieces`: per kind, per rotation, 4 `(x, y)` pairs flattened to 8 ints. -/
def pieces : List (List (List Int)) :=
  [ -- I
    [[0,1, 1,1, 2,1, 3,1], [2,0,2,1,2,2,2,3]],
    -- O
    [[1,0,2,0,1,1,2,1]],
    -- T
    [[1,0,0,1,1,1,2,1], [1,0,1,1,2,1,1,2], [0,1,1,1,2,1,1,2], [1,0,0,1,1,1,1,2]],
    -- S
    [[1,0,2,0,0,1,1,1], [1,0,1,1,2,1,2,2]],
    -- Z
    [[0,0,1,0,1,1,2,1], [2,0,1,1,2,1,1,2]],
    -- J
    [[0,0,0,1,1,1,2,1], [1,0,2,0,1,1,1,2], [0,1,1,1,2,1,2,2], [1,0,1,1,0,2,1,2]],
    -- L
    [[2,0,0,1,1,1,2,1], [1,0,1,1,1,2,2,2], [0,1,1,1,2,1,0,2], [0,0,1,0,1,1,1,2]] ]

/-- Palette `colors`, as the `(r, g, b)` arguments of `pixel.NewColor`. -/
def colors : List (Nat × Nat × Nat) :=
  [(0,0,0), (200,80,80), (80,200,120), (120,120,200), (200,200,80), (200,120,200),
   (120,200,200)]

/-- Current piece state `Piece`. -/
structure Piece where
  kind : Int
  trot : Int
  x : Int
  y : Int
  deriving DecidableEq

/-- The two globals of the program: `board` and `cur`. -/
structure Game where
  board : Board
  cur : Piece

/-! ## Fallible indexing and counted loops -/

/-- Slice access `l[i]` with a Go `int` index. -/
def index? {α : Type} (l : List α) (i : Int) : Option α :=
  if 0 ≤ i then l[i.toNat]? else none

/-- Array read `board[i]`, counter index. -/
def Board.get? (b : Board) (i : Nat) : Option Nat :=
  if h : i < 200 then some (b ⟨i, h⟩) else none

/-- Array write `board[i] = v`, counter index. -/
def Board.set? (b : Board) (i : Nat) (v : Nat) : Option Board :=
  if h : i < 200 then some (Function.update b ⟨i, h⟩ v) else none

/-- Array read `board[i]` with a Go `int` index. -/
def Board.getI? (b : Board) (i : Int) : Option Nat :=
  if 0 ≤ i then b.get? i.toNat else none

/-- Array write `board[i] = v` with a Go `int` index. -/
def Board.setI? (b : Board) (i : Int) (v : Nat) : Option Board :=
  if 0 ≤ i then b.set? i.toNat v else none

/-- Counted loop `for i := lo; i < hi; i++ { s = body i s }` whose body may fail. -/
def forRange {σ : Type} (lo hi : Nat) (body : Nat → σ → Option σ) (s : σ) : Option σ :=
  (List.range' lo (hi - lo)).foldlM (fun s i => body i s) s

/-! ## Engine operations -/

/-- Function `clearBoard`: `for i:=0;i<GRID_W*GRID_H;i++{ board[i]=0 }`. -/
def clearBoard (b : Board) : Option Board :=
  forRange 0 (GRID_W * GRID_H) (fun i b => b.set? i 0) b

/-- Loop of `collides` over `i = 0, 2, 4, 6`, given as the list of remaining `i`. -/
def collidesFrom (b : Board) (shape : List Int) (px py : Int) : List Nat → Option Bool
  | [] => some false
  | i :: rest => do
    let sx ← shape[i]?
    let sy ← shape[i+1]?
    let x := px + sx
    let y := py + sy
    if x < 0 ∨ x ≥ GRID_W ∨ y < 0 ∨ y ≥ GRID_H then some true
    else do
      let v ← b.getI? (y * GRID_W + x)
      if v ≠ 0 then some true else collidesFrom b shape px py rest

/-- Function `collides(px, py, rot)`. -/
def collides (g : Game) (px py rot : Int) : Option Bool := do
  let rots ← index? pieces g.cur.kind
  let shape ← index? rots (Int.tmod rot rots.length)
  collidesFrom g.board shape px py [0, 2, 4, 6]

/-- Function `tryMove(dx, dy)`: the new globals and the returned flag. -/
def tryMove (g : Game) (dx dy : Int) : Option (Game × Bool) := do
  let nx := g.cur.x + dx
  let ny := g.cur.y + dy
  let c ← collides g nx ny g.cur.trot
  if !c then some ({ g with cur := { g.cur with x := nx, y := ny } }, true)
  else some (g, false)

/-- Function `rotatePiece`. -/
def rotatePiece (g : Game) : Option Game := do
  let rots ← index? pieces g.cur.kind
  let newRot := Int.tmod (g.cur.trot + 1) rots.length
  let c ← collides g g.cur.x g.cur.y newRot
  if !c then some { g with cur := { g.cur with trot := newRot } } else some g

/-- Body of the loop of `lockPiece` for one `i`. -/
def lockCell (cur : Piece) (shape : List Int) (i : Nat) (b : Board) : Option Board := do
  let sx ← shape[i]?
  let sy ← shape[i+1]?
  let x := cur.x + sx
  let y := cur.y + sy
  if x ≥ 0 ∧ x < GRID_W ∧ y ≥ 0 ∧ y < GRID_H then
    b.setI? (y * GRID_W + x) (((Int.tmod cur.kind (colors.length - 1 : Nat) + 1) % 256).toNat)
  else some b

/-- Function `lockPiece`. -/
def lockPiece (g : Game) : Option Game := do
  let rots ← index? pieces g.cur.kind
  let shape ← index? rots (Int.tmod g.cur.trot rots.length)
  let b ← [0, 2, 4, 6].foldlM (fun b i => lockCell g.cur shape i b) g.board
  some { g with board := b }

/-- Inner scan of `clearLines`: `full` after
`for c:=0;c<GRID_W;c++ { if board[base+c]==0 { full=false; break } }`, over the remaining
columns. -/
def scanRow (b : Board) (base : Nat) : List Nat → Option Bool
  | [] => some true
  | c :: rest => do
    let v ← b.get? (base + c)
    if v = 0 then some false else scanRow b base rest

/-- Row copy of `clearLines`:
`for c:=0;c<GRID_W;c++ { board[write*GRID_W + c] = board[row*GRID_W + c] }`. -/
def copyRow (write row : Nat) (b : Board) : Option Board :=
  forRange 0 GRID_W (fun c b => do
    let v ← b.get? (row * GRID_W + c)
    b.set? (write * GRID_W + c) v) b

/-- Body of the outer loop of `clearLines` on the pair `(board, write)`. -/
def clearLinesRow (row : Nat) (s : Board × Nat) : Option (Board × Nat) := do
  let full ← scanRow s.1 (row * GRID_W) (List.range GRID_W)
  if !full then
    let b ← if s.2 ≠ row then copyRow s.2 row s.1 else some s.1
    some (b, s.2 + 1)
  else some s

/-- Body of the final loop of `clearLines`: `for c:=0;c<GRID_W;c++ { board[r*GRID_W + c]=0 }`. -/
def zeroRow (r : Nat) (b : Board) : Option Board :=
  forRange 0 GRID_W (fun c b => b.set? (r * GRID_W + c) 0) b

/-- Function `clearLines`. -/
def clearLines (b : Board) : Option Board := do
  let s ← forRange 0 GRID_H clearLinesRow (b, 0)
  forRange s.2 GRID_H zeroRow s.1

/-- Function `spawnPiece`; `k` is the value returned by `rand.Intn(len(pieces))`. -/
def spawnPiece (g : Game) (k : Int) : Option Game := do
  let g1 : Game := { g with cur := { kind := k, trot := 0, x := (GRID_W / 2 : Nat) - 2, y := 0 } }
  let c ← collides g1 g1.cur.x g1.cur.y g1.cur.trot
  if c then do
    let b ← clearBoard g1.board
    some { g1 with board := b }
  else some g1

/-! ## Main loop -/

/-- Engine calls issued by the body of the main loop. `gravity k` is the block
`if !tryMove(0,1) { lockPiece(); clearLines(); spawnPiece() }`, with `k` the kind that
`rand.Intn` yields should `spawnPiece` be reached. -/
inductive Call where
  | moveLeft
  | moveRight
  | rotate
  | softDrop
  | gravity (k : Int)
  deriving DecidableEq

/-- What one pass of the main loop samples: the four `Get()` levels (`true` = released),
whether `time.Since(lastFall) >= fallInterval`, and the next random kind. -/
structure Tick where
  left : Bool
  up : Bool
  right : Bool
  down : Bool
  due : Bool
  kind : Int

/-- Execution of one engine call. -/
def exec (g : Game) : Call → Option Game
  | .moveLeft => (tryMove g (-1) 0).map Prod.fst
  | .moveRight => (tryMove g 1 0).map Prod.fst
  | .rotate => rotatePiece g
  | .softDrop => (tryMove g 0 1).map Prod.fst
  | .gravity k => do
    let r ← tryMove g 0 1
    if !r.2 then do
      let g1 ← lockPiece r.1
      let b ← clearLines g1.board
      spawnPiece { g1 with board := b } k
    else some r.1

/-- Calls issued by one pass of the loop body, in program order (lines 86-102). -/
def tickCalls (t : Tick) : List Call :=
  (if !t.left then [Call.moveLeft] else []) ++
  (if !t.right then [Call.moveRight] else []) ++
  (if !t.up then [Call.rotate] else []) ++
  (if !t.down then [Call.softDrop] else []) ++
  (if t.due then [Call.gravity t.kind] else [])

/-- Run a sequence of engine calls. -/
def run (g : Game) (cs : List Call) : Option Game :=
  cs.foldlM exec g

/-- One pass of the main loop. -/
def tick (g : Game) (t : Tick) : Option Game :=
  run g (tickCalls t)

/-- Start of `main`: `clearBoard(); spawnPiece()`, from arbitrary globals. -/
def start (g : Game) (k : Int) : Option Game := do
  let b ← clearBoard g.board
  spawnPiece { g with board := b } k

/-! ## Specification vocabulary and concrete inputs -/

/-- Cell `(x, y)` lies on the grid `[0,10) x [0,20)`. -/
def inGrid (x y : Int) : Prop := 0 ≤ x ∧ x < GRID_W ∧ 0 ≤ y ∧ y < GRID_H

instance (x y : Int) : Decidable (inGrid x y) :=
  inferInstanceAs (Decidable (0 ≤ x ∧ x < GRID_W ∧ 0 ≤ y ∧ y < GRID_H))

/-- Value of the board at flat index `i`, `0` off the array (total reading, for statements). -/
def Board.read (b : Board) (i : Nat) : Nat := if h : i < 200 then b ⟨i, h⟩ else 0

/-- Value of the board cell in column `x` of row `y`. -/
def cellValue (b : Board) (x y : Int) : Nat := b.read (y * GRID_W + x).toNat

/-- Cell `(x, y)` cannot take a block: it is off the grid, or on it and occupied. -/
def blocked (b : Board) (x y : Int) : Prop := ¬ inGrid x y ∨ (inGrid x y ∧ cellValue b x y ≠ 0)

instance (b : Board) (x y : Int) : Decidable (blocked b x y) :=
  inferInstanceAs (Decidable (¬ inGrid x y ∨ (inGrid x y ∧ cellValue b x y ≠ 0)))

/-- The `(x, y)` pairs of a flattened shape. -/
def offsets : List Int → List (Int × Int)
  | x :: y :: rest => (x, y) :: offsets rest
  | _ => []

/-- Absolute cells of a shape placed with its origin at `(px, py)`. -/
def cellsAt (shape : List Int) (px py : Int) : List (Int × Int) :=
  (offsets shape).map fun c => (px + c.1, py + c.2)

/-- Rotation states of kind `k` (`pieces[k]`; empty off the table). -/
def rotationsOf (k : Nat) : List (List Int) := pieces.getD k []

/-- Rotation state `r mod R` of kind `k`, with `R = len(pieces[k])`. -/
def shapeOf (k r : Nat) : List Int := (rotationsOf k).getD (r % (rotationsOf k).length) []

/-- Flat board index of cell `(x, y)`: `y*GRID_W + x`. -/
def cellIndex (x y : Int) : Nat := (y * GRID_W + x).toNat

/-- Board with cell `(x, y)` set to `v` when the cell is on the grid. -/
def paint (b : Board) (x y : Int) (v : Nat) : Board :=
  fun i => if inGrid x y ∧ cellIndex x y = i.val then v else b i

/-- Value that `lockPiece` writes for a piece of kind `k`: `uint8((k % (len(colors)-1)) + 1)`. -/
def lockColor (k : Nat) : Nat := k % 6 + 1

/-- Board after `lockPiece`: every on-grid cell of the piece holds the piece's colour, every
other cell is as before. -/
def lockedBoard (b : Board) (cells : List (Int × Int)) (v : Nat) : Board :=
  fun i => if ∃ c ∈ cells, inGrid c.1 c.2 ∧ cellIndex c.1 c.2 = i.val then v else b i

/-- Row `r` of the board, left to right. -/
def rowOf (b : Board) (r : Nat) : List Nat :=
  (List.range GRID_W).map fun c => b.read (r * GRID_W + c)

/-- The 20 rows of the board, top (row 0) to bottom (row 19). -/
def rowsOf (b : Board) : List (List Nat) := (List.range GRID_H).map (rowOf b)

/-- A row is full when none of its cells is `0`. -/
def isFull (row : List Nat) : Bool := row.all fun v => v != 0

/-- The all-zero row. -/
def emptyRow : List Nat := List.replicate GRID_W 0

/-- Invariant of the outer loop of `clearLines` before row `row`, for the initial board `b0`:
the rows written so far are the non-full rows met so far, and the rows still to be scanned are
untouched. -/
def ClearInv (b0 : Board) (row : Nat) (s : Board × Nat) : Prop :=
  s.2 ≤ row ∧ (∀ r, row ≤ r → r < 20 → rowOf s.1 r = rowOf b0 r) ∧
    (List.range s.2).map (rowOf s.1)
      = ((List.range row).map (rowOf b0)).filter fun x => !isFull x

/-- The active piece is well-formed and free: its kind is in the table, its rotation index is
one of the `R` indices `0..R-1` of that kind, and `collides` at its own placement returns
`false`. -/
def Safe (g : Game) : Prop :=
  ∃ k rot : Nat, k < 7 ∧ g.cur.kind = (k : Int) ∧ g.cur.trot = (rot : Int) ∧
    rot < (rotationsOf k).length ∧ collides g g.cur.x g.cur.y g.cur.trot = some false

/-- Kinds that `rand.Intn(len(pieces))` can yield. -/
def Call.ok : Call → Bool
  | .gravity k => decide (0 ≤ k ∧ k < 7)
  | _ => true

/-- Every board cell holds a palette index: a value below `len(colors)`. -/
def validBoard (b : Board) : Prop := ∀ j : Fin 200, b j < colors.length

/-- The empty board. -/
def emptyBoard : Board := fun _ => 0

/-- Globals at program start: zeroed board and zero-valued `cur`. -/
def bootGame : Game := ⟨emptyBoard, ⟨0, 0, 0, 0⟩⟩

/-- Board with the bottom row (row 19) full, built from two lying `I` pieces (colour 1) in
columns 0-7 and an `O` piece (colour 2) in columns 8-9 of rows 18-19. -/
def floatBoard : Board := fun i =>
  if i.val = 188 ∨ i.val = 189 ∨ i.val = 198 ∨ i.val = 199 then 2
  else if 190 ≤ i.val then 1 else 0

/-- Result of `n` calls of `rotatePiece` in a row. -/
def rotateTimes : Nat → Game → Option Game
  | 0, g => some g
  | n + 1, g => (rotatePiece g).bind (rotateTimes n)

/-- Whether `collides` returns `false` for rotation index `r` at the position of the active
piece. -/
def freeAt (g : Game) (r : Nat) : Bool :=
  decide (collides g g.cur.x g.cur.y (r : Int) = some false)

/-- Rotation index after `n` calls of `rotatePiece` from index `i`, for a kind with `R` rotation
states of which `free` tells the free ones: a call moves on to `(i + 1) mod R` when that state
is free and keeps `i` otherwise. -/
def settle (free : Nat → Bool) (R : Nat) : Nat → Nat → Nat
  | 0, i => i
  | n + 1, i => if free ((i + 1) % R) then settle free R n ((i + 1) % R) else settle free R n i

/-- Board with the columns 4 and 5 filled in every row: ten `O` pieces (colour 2) dropped one
on another from the spawn origin. -/
def stackBoard : Board := fun i => if i.val % 10 = 4 ∨ i.val % 10 = 5 then 2 else 0

/-- A game played from the start of `main` with an `O` piece: the `O` falls to the floor and
locks in columns 4-5, the next piece, a `J`, is moved one column left and falls 16 rows, to
`(2, 16)`. -/
def pegPlay : List Call :=
  List.replicate 19 (Call.gravity 5) ++ [Call.moveLeft] ++ List.replicate 16 (Call.gravity 0)

/-- Board whose only occupied cell is `(2, 2)`. -/
def pegBoard : Board := fun i => if i.val = 22 then 1 else 0

/-- A `J` piece (kind 5) in rotation 0 at the origin `(0, 0)` of `pegBoard`. -/
def pegGame : Game := ⟨pegBoard, ⟨5, 0, 0, 0⟩⟩

/-- A `T` piece (kind 2) in rotation 0 at the spawn origin of the empty board. -/
def freeGame : Game := ⟨emptyBoard, ⟨2, 0, 3, 0⟩⟩

/-- An upright `I` piece (kind 0, rotation 1) in column 0 of the empty board, origin
`(-2, 0)`: lying down (rotation 0) it would reach off the grid to the left. -/
def wallGame : Game := ⟨emptyBoard, ⟨0, 1, -2, 0⟩⟩

/-- A game played from the start of `main`: an `I` piece laid into columns 0-3 of the bottom
row, a second `I` into columns 4-7, and an `O` piece brought down in columns 8-9 until it rests
on the floor. -/
def floatPlay : List Call :=
  List.replicate 3 Call.moveLeft ++ List.replicate 19 (Call.gravity 0) ++ [Call.moveRight] ++
  List.replicate 19 (Call.gravity 1) ++ List.replicate 4 Call.moveRight ++
  List.replicate 18 (Call.gravity 0)

/-- The four buttons read by the main loop. -/
inductive Dir where
  | left
  | up
  | right
  | down
  deriving DecidableEq

/-- Engine call that the loop body attaches to a button. -/
def Dir.call : Dir → Call
  | .left => Call.moveLeft
  | .up => Call.rotate
  | .right => Call.moveRight
  | .down => Call.softDrop

/-- Level that a pass of the loop samples for a button (`true` = released). -/
def Tick.sample (t : Tick) : Dir → Bool
  | .left => t.left
  | .up => t.up
  | .right => t.right
  | .down => t.down

/-- A pass of the loop in which button `d` is sampled at level `s`, the other buttons are
released and gravity is not due. -/
def sampleTick (d : Dir) (s : Bool) : Tick :=
  { left := if d = Dir.left then s else true
    up := if d = Dir.up then s else true
    right := if d = Dir.right then s else true
    down := if d = Dir.down then s else true
    due := false
    kind := 0 }

/-- Numbers (from 1) of the passes in which the call of button `d` is issued. -/
def fireTicks (d : Dir) (ts : List Tick) : List Nat :=
  (ts.enum.filter fun p => decide (d.call ∈ tickCalls p.2)).map fun p => p.1 + 1

/-- One pass of `runLoop` of the sample program for one button: `prev` is the stored sample
(`prevL`), `cur` the new one (`curL`); the result is whether the button acts
(`!curL && prevL`) and the sample stored for the next pass (`prevL = curL`). -/
def runLoopStep (prev cur : Bool) : Bool × Bool := (!cur && prev, cur)

/-- Numbers (from `n`) of the passes of `runLoop` in which the button acts, for the stored
sample `prev` and the samples of the passes to come. -/
def runLoopFires (prev : Bool) (n : Nat) : List Bool → List Nat
  | [] => []
  | cur :: rest =>
    (if (runLoopStep prev cur).1 then [n] else [])
      ++ runLoopFires (runLoopStep prev cur).2 (n + 1) rest

/-- Calls issued by a sequence of passes of the main loop. -/
def ticksCalls : List Tick → List Call
  | [] => []
  | t :: ts => tickCalls t ++ ticksCalls ts

/-- Two's-complement value of `v` in a signed machine `int` of `w` bits. -/
def wrapInt (w : Nat) (v : Int) : Int := (v + 2 ^ (w - 1)) % 2 ^ w - 2 ^ (w - 1)

/-! ## Basic facts -/

theorem getI?_of_inGrid (b : Board) {x y : Int} (h : inGrid x y) :
    b.getI? (y * GRID_W + x) = some (cellValue b x y) := by
  obtain ⟨h1, h2, h3, h4⟩ := h
  simp only [GRID_W, GRID_H, Nat.cast_ofNat] at h2 h4
  have h5 : (y * 10 + x).toNat < 200 := by omega
  have h6 : 0 ≤ y * 10 + x := by omega
  simp [Board.getI?, Board.get?, cellValue, Board.read, h5, h6]

theorem collidesFrom_eight (b : Board) (px py a0 b0 a1 b1 a2 b2 a3 b3 : Int) :
    collidesFrom b [a0, b0, a1, b1, a2, b2, a3, b3] px py [0, 2, 4, 6]
      = some (decide (blocked b (px + a0) (py + b0) ∨ blocked b (px + a1) (py + b1) ∨
          blocked b (px + a2) (py + b2) ∨ blocked b (px + a3) (py + b3))) := by
  have step : ∀ (x y : Int) (k : Option Bool),
      (if x < 0 ∨ x ≥ GRID_W ∨ y < 0 ∨ y ≥ GRID_H then some true
        else (b.getI? (y * GRID_W + x)).bind fun v => if v ≠ 0 then some true else k)
      = if blocked b x y then some true else k := by
    intro x y k
    by_cases hg : inGrid x y
    · have hn : ¬ (x < 0 ∨ x ≥ GRID_W ∨ y < 0 ∨ y ≥ GRID_H) := by
        unfold inGrid at hg; omega
      rw [if_neg hn, getI?_of_inGrid b hg]
      simp [blocked, hg]
    · have hn : (x < 0 ∨ x ≥ GRID_W ∨ y < 0 ∨ y ≥ GRID_H) := by
        unfold inGrid at hg; omega
      rw [if_pos hn]
      simp [blocked, hg]
  simp only [collidesFrom, List.getElem?_cons_zero, List.getElem?_cons_succ, Option.bind_eq_bind,
    Option.some_bind, step]
  by_cases h0 : blocked b (px + a0) (py + b0) <;> by_cases h1 : blocked b (px + a1) (py + b1) <;>
    by_cases h2 : blocked b (px + a2) (py + b2) <;> by_cases h3 : blocked b (px + a3) (py + b3) <;>
    simp [h0, h1, h2, h3]

/-! ## Piece table -/

theorem rotationsOf_pos {k : Nat} (hk : k < 7) : 0 < (rotationsOf k).length := by
  interval_cases k <;> decide

theorem pieces_lookup {k : Nat} (hk : k < 7) : index? pieces (k : Int) = some (rotationsOf k) := by
  interval_cases k <;> rfl

theorem index?_natCast {α : Type} (l : List α) (i : Nat) : index? l (i : Int) = l[i]? := by
  simp [index?]

theorem rotations_lookup {k : Nat} (hk : k < 7) (r : Nat) :
    index? (rotationsOf k) (Int.tmod (r : Int) ((rotationsOf k).length : Int))
      = some (shapeOf k r) := by
  have hpos := rotationsOf_pos hk
  have hlt : r % (rotationsOf k).length < (rotationsOf k).length := Nat.mod_lt _ hpos
  rw [← Int.ofNat_tmod, index?_natCast, shapeOf, List.getD_eq_getElem?_getD,
    List.getElem?_eq_getElem hlt]
  rfl

theorem shape_length_eight : ∀ rots ∈ pieces, ∀ shape ∈ rots, shape.length = 8 := by decide

theorem shapeOf_mem {k : Nat} (hk : k < 7) (r : Nat) : shapeOf k r ∈ rotationsOf k := by
  have hpos := rotationsOf_pos hk
  have hlt : r % (rotationsOf k).length < (rotationsOf k).length := Nat.mod_lt _ hpos
  rw [shapeOf, List.getD_eq_getElem?_getD, List.getElem?_eq_getElem hlt]
  exact List.getElem_mem _

theorem rotationsOf_mem {k : Nat} (hk : k < 7) : rotationsOf k ∈ pieces := by
  interval_cases k <;> decide

theorem shapeOf_eight {k : Nat} (hk : k < 7) (r : Nat) :
    ∃ a0 b0 a1 b1 a2 b2 a3 b3 : Int, shapeOf k r = [a0, b0, a1, b1, a2, b2, a3, b3] := by
  have h := shape_length_eight _ (rotationsOf_mem hk) _ (shapeOf_mem hk r)
  match hs : shapeOf k r, h with
  | [a0, b0, a1, b1, a2, b2, a3, b3], _ => exact ⟨a0, b0, a1, b1, a2, b2, a3, b3, rfl⟩

/-- Function `collides` on a piece of kind `k` in the table, with `rot ≥ 0`. -/
theorem collides_eq (g : Game) (k rot : Nat) (hk : k < 7) (hkind : g.cur.kind = (k : Int))
    (px py : Int) :
    collides g px py (rot : Int)
      = some (decide (∃ c ∈ cellsAt (shapeOf k rot) px py, blocked g.board c.1 c.2)) := by
  obtain ⟨a0, b0, a1, b1, a2, b2, a3, b3, hs⟩ := shapeOf_eight hk rot
  simp only [collides, hkind, pieces_lookup hk, rotations_lookup hk, Option.bind_eq_bind,
    Option.some_bind, hs, collidesFrom_eight, cellsAt, offsets]
  simp

/-! ## Locking -/

theorem cellIndex_lt {x y : Int} (h : inGrid x y) : cellIndex x y < 200 := by
  obtain ⟨h1, h2, h3, h4⟩ := h
  simp only [GRID_W, GRID_H, Nat.cast_ofNat] at h2 h4
  simp only [cellIndex, GRID_W, Nat.cast_ofNat]
  omega

theorem cellIndex_inj {x y x' y' : Int} (h : inGrid x y) (h' : inGrid x' y')
    (he : cellIndex x y = cellIndex x' y') : x = x' ∧ y = y' := by
  obtain ⟨h1, h2, h3, h4⟩ := h
  obtain ⟨h1', h2', h3', h4'⟩ := h'
  simp only [GRID_W, GRID_H, Nat.cast_ofNat] at h2 h4 h2' h4'
  simp only [cellIndex, GRID_W, Nat.cast_ofNat] at he
  omega

theorem lockColor_eq (k : Nat) :
    ((Int.tmod (k : Int) ((colors.length - 1 : Nat) : Int) + 1) % 256).toNat = lockColor k := by
  have h : (colors.length - 1 : Nat) = 6 := rfl
  rw [h, ← Int.ofNat_tmod]
  have : k % 6 < 6 := Nat.mod_lt _ (by decide)
  simp only [lockColor]
  omega

theorem setI?_of_inGrid (b : Board) {x y : Int} (h : inGrid x y) (v : Nat) :
    b.setI? (y * GRID_W + x) v = some (paint b x y v) := by
  have h5 := cellIndex_lt h
  obtain ⟨h1, h2, h3, h4⟩ := h
  simp only [GRID_W, GRID_H, Nat.cast_ofNat] at h2 h4
  have h6 : (0 : Int) ≤ y * (GRID_W : Nat) + x := by simp only [GRID_W, Nat.cast_ofNat]; omega
  simp only [cellIndex] at h5
  simp only [Board.setI?, h6, if_true, Board.set?, h5, dite_true, Option.some.injEq]
  funext i
  have hg : inGrid x y := ⟨h1, by simpa using h2, h3, by simpa using h4⟩
  simp only [paint, hg, true_and, cellIndex, Function.update_apply, Fin.ext_iff]
  simp only [GRID_W, Nat.cast_ofNat]
  by_cases hi : (i : Nat) = (y * 10 + x).toNat
  · simp [hi]
  · have hi' : ¬ (y * 10 + x).toNat = (i : Nat) := fun h => hi h.symm
    simp [hi, hi']

theorem paint_of_not_inGrid (b : Board) {x y : Int} (h : ¬ inGrid x y) (v : Nat) :
    paint b x y v = b := by
  funext i; simp [paint, h]

/-- One iteration of the loop of `lockPiece`. -/
theorem lockCell_eq (cur : Piece) (k : Nat) (hkind : cur.kind = (k : Int)) (shape : List Int)
    (i : Nat) (sx sy : Int) (hx : shape[i]? = some sx) (hy : shape[i+1]? = some sy) (b : Board) :
    lockCell cur shape i b = some (paint b (cur.x + sx) (cur.y + sy) (lockColor k)) := by
  simp only [lockCell, hx, hy, Option.bind_eq_bind, Option.some_bind, hkind, lockColor_eq]
  by_cases hg : inGrid (cur.x + sx) (cur.y + sy)
  · have hc : cur.x + sx ≥ 0 ∧ cur.x + sx < (GRID_W : Nat) ∧ cur.y + sy ≥ 0
        ∧ cur.y + sy < (GRID_H : Nat) := hg
    rw [if_pos hc, setI?_of_inGrid b hg]
  · have hc : ¬ (cur.x + sx ≥ 0 ∧ cur.x + sx < (GRID_W : Nat) ∧ cur.y + sy ≥ 0
        ∧ cur.y + sy < (GRID_H : Nat)) := hg
    rw [if_neg hc, paint_of_not_inGrid b hg]

/-- The loop of `lockPiece` on a shape of 8 entries. -/
theorem lockFold_eq (cur : Piece) (k : Nat) (hkind : cur.kind = (k : Int)) (b : Board)
    (a0 b0 a1 b1 a2 b2 a3 b3 : Int) :
    [0, 2, 4, 6].foldlM (fun b i => lockCell cur [a0, b0, a1, b1, a2, b2, a3, b3] i b) b
      = some (lockedBoard b (cellsAt [a0, b0, a1, b1, a2, b2, a3, b3] cur.x cur.y)
          (lockColor k)) := by
  have e0 := lockCell_eq cur k hkind [a0, b0, a1, b1, a2, b2, a3, b3] 0 a0 b0 rfl rfl
  have e1 := lockCell_eq cur k hkind [a0, b0, a1, b1, a2, b2, a3, b3] 2 a1 b1 rfl rfl
  have e2 := lockCell_eq cur k hkind [a0, b0, a1, b1, a2, b2, a3, b3] 4 a2 b2 rfl rfl
  have e3 := lockCell_eq cur k hkind [a0, b0, a1, b1, a2, b2, a3, b3] 6 a3 b3 rfl rfl
  simp only [List.foldlM_cons, List.foldlM_nil, e0, e1, e2, e3, Option.bind_eq_bind,
    Option.some_bind, Option.pure_def]
  refine congrArg some (funext fun i => ?_)
  simp only [paint, lockedBoard, cellsAt, offsets, List.map_cons, List.map_nil, List.mem_cons,
    List.mem_singleton, List.not_mem_nil, or_false, exists_eq_or_imp, exists_eq_left]
  by_cases h3 : inGrid (cur.x + a3) (cur.y + b3) ∧ cellIndex (cur.x + a3) (cur.y + b3) = i
  <;> by_cases h2 : inGrid (cur.x + a2) (cur.y + b2) ∧ cellIndex (cur.x + a2) (cur.y + b2) = i
  <;> by_cases h1 : inGrid (cur.x + a1) (cur.y + b1) ∧ cellIndex (cur.x + a1) (cur.y + b1) = i
  <;> by_cases h0 : inGrid (cur.x + a0) (cur.y + b0) ∧ cellIndex (cur.x + a0) (cur.y + b0) = i
  <;> simp [h0, h1, h2, h3]

theorem lockPiece_unfold (g : Game) :
    lockPiece g = (index? pieces g.cur.kind).bind fun rots =>
      (index? rots (Int.tmod g.cur.trot rots.length)).bind fun shape =>
        ([0, 2, 4, 6].foldlM (fun b i => lockCell g.cur shape i b) g.board).bind fun b =>
          some { g with board := b } := rfl

/-- Function `lockPiece` on a piece of kind `k` in the table, with rotation index `rot ≥ 0`. -/
theorem lockPiece_eq (g : Game) (k rot : Nat) (hk : k < 7) (hkind : g.cur.kind = (k : Int))
    (hrot : g.cur.trot = (rot : Int)) :
    lockPiece g
      = some ⟨lockedBoard g.board (cellsAt (shapeOf k rot) g.cur.x g.cur.y) (lockColor k),
          g.cur⟩ := by
  obtain ⟨a0, b0, a1, b1, a2, b2, a3, b3, hs⟩ := shapeOf_eight hk rot
  rw [lockPiece_unfold, hkind, hrot, pieces_lookup hk, Option.some_bind, rotations_lookup hk,
    Option.some_bind, hs, lockFold_eq g.cur k hkind, Option.some_bind]

theorem index?_some {α : Type} {l : List α} {i : Int} {a : α} (h : index? l i = some a) :
    0 ≤ i ∧ l[i.toNat]? = some a := by
  unfold index? at h
  by_cases hi : 0 ≤ i
  · rw [if_pos hi] at h; exact ⟨hi, h⟩
  · rw [if_neg hi] at h; exact absurd h (by simp)

/-- Whenever `lockPiece` returns, the piece kind is in the table and the board is the input
board with the on-grid cells of one rotation state of that kind painted. -/
theorem lockPiece_some {g g' : Game} (h : lockPiece g = some g') :
    ∃ k r : Nat, k < 7 ∧ g.cur.kind = (k : Int) ∧ g'.cur = g.cur ∧
      g'.board = lockedBoard g.board (cellsAt (shapeOf k r) g.cur.x g.cur.y) (lockColor k) := by
  rw [lockPiece_unfold] at h
  cases hp : index? pieces g.cur.kind with
  | none => rw [hp] at h; exact absurd h (by simp)
  | some rots =>
    rw [hp, Option.some_bind] at h
    obtain ⟨hk0, hk1⟩ := index?_some hp
    have hk : g.cur.kind.toNat < 7 := by
      have := (List.getElem?_eq_some_iff.mp hk1).1
      simpa [pieces] using this
    have hkind : g.cur.kind = (g.cur.kind.toNat : Int) := by omega
    have hrots : rots = rotationsOf g.cur.kind.toNat := by
      have := pieces_lookup hk
      rw [← hkind, hp] at this
      exact Option.some.inj this
    cases hsh : index? rots (Int.tmod g.cur.trot rots.length) with
    | none => rw [hsh] at h; exact absurd h (by simp)
    | some shape =>
      rw [hsh, Option.some_bind] at h
      obtain ⟨hr0, hr1⟩ := index?_some hsh
      obtain ⟨hlt, hget⟩ := List.getElem?_eq_some_iff.mp hr1
      have hshape : shape = shapeOf g.cur.kind.toNat (Int.tmod g.cur.trot rots.length).toNat := by
        rw [shapeOf, ← hrots, Nat.mod_eq_of_lt hlt, List.getD_eq_getElem?_getD, hr1]
        rfl
      obtain ⟨a0, b0, a1, b1, a2, b2, a3, b3, hs⟩ :=
        shapeOf_eight hk (Int.tmod g.cur.trot rots.length).toNat
      rw [hshape, hs, lockFold_eq g.cur _ hkind, Option.some_bind] at h
      have hg := Option.some.inj h
      refine ⟨_, (Int.tmod g.cur.trot rots.length).toNat, hk, hkind, ?_, ?_⟩
      · rw [← hg]
      · rw [← hg, hs]

/-! ## Counted loops -/

theorem forRange_self {σ : Type} (lo hi : Nat) (h : hi ≤ lo) (body : Nat → σ → Option σ) (s : σ) :
    forRange lo hi body s = some s := by
  have : hi - lo = 0 := by omega
  simp [forRange, this]

theorem forRange_step {σ : Type} (lo hi : Nat) (h : lo < hi) (body : Nat → σ → Option σ) (s : σ) :
    forRange lo hi body s = (body lo s).bind (forRange (lo + 1) hi body) := by
  have : hi - lo = (hi - (lo + 1)) + 1 := by omega
  simp only [forRange, this, List.range'_succ, List.foldlM_cons, Option.bind_eq_bind]

/-- Loop invariant rule for `forRange`: an invariant that holds on entry and is carried by every
iteration (which must not fail) holds of the state the loop ends in. -/
theorem forRange_invariant {σ : Type} (P : Nat → σ → Prop) (hi : Nat)
    (body : Nat → σ → Option σ)
    (hstep : ∀ i s, i < hi → P i s → ∃ s', body i s = some s' ∧ P (i + 1) s') :
    ∀ (n lo : Nat) (s : σ), hi - lo = n → lo ≤ hi → P lo s →
      ∃ s', forRange lo hi body s = some s' ∧ P hi s' := by
  intro n
  induction n with
  | zero =>
    intro lo s hn hle h0
    have : lo = hi := by omega
    subst this
    exact ⟨s, forRange_self _ _ (le_refl _) _ _, h0⟩
  | succ n ih =>
    intro lo s hn hle h0
    have hlt : lo < hi := by omega
    obtain ⟨s1, hb, h1⟩ := hstep lo s hlt h0
    obtain ⟨s2, hf, h2⟩ := ih (lo + 1) s1 (by omega) (by omega) h1
    exact ⟨s2, by rw [forRange_step _ _ hlt, hb, Option.some_bind, hf], h2⟩

theorem get?_eq_read (b : Board) {i : Nat} (h : i < 200) : b.get? i = some (b.read i) := by
  simp [Board.get?, Board.read, h]

theorem read_fin (b : Board) (i : Fin 200) : b.read i.val = b i := by
  simp [Board.read]

theorem set?_eq (b : Board) {i : Nat} (h : i < 200) (v : Nat) :
    b.set? i v = some (fun j => if j.val = i then v else b j) := by
  simp only [Board.set?, h, dite_true, Option.some.injEq]
  funext j
  simp [Function.update_apply, Fin.ext_iff]

theorem grid_cells : GRID_W * GRID_H = 200 := by norm_num [GRID_W, GRID_H]

/-- Function `clearBoard` returns the all-zero board. -/
theorem clearBoard_eq (b : Board) : clearBoard b = some (fun _ => 0) := by
  have hstep : ∀ i (s : Board), i < 200 → (∀ j : Fin 200, j.val < i → s j = 0) →
      ∃ s', s.set? i 0 = some s' ∧ ∀ j : Fin 200, j.val < i + 1 → s' j = 0 := by
    intro i s hi hP
    refine ⟨_, set?_eq s hi 0, ?_⟩
    intro j hj
    by_cases h : j.val = i
    · simp [h]
    · simp only [h, if_false]; exact hP j (by omega)
  obtain ⟨b', hb, hP⟩ := forRange_invariant
    (fun i (b' : Board) => ∀ j : Fin 200, j.val < i → b' j = 0) 200 (fun i b => b.set? i 0)
    hstep 200 0 b (by omega) (Nat.zero_le _) (by intro j hj; omega)
  rw [clearBoard, grid_cells, hb]
  exact congrArg some (funext fun j => hP j j.isLt)

/-! ## Line clearing -/

theorem scanRow_eq (b : Board) (base : Nat) (cs : List Nat) (h : ∀ c ∈ cs, base + c < 200) :
    scanRow b base cs = some (cs.all fun c => b.read (base + c) != 0) := by
  induction cs with
  | nil => rfl
  | cons c rest ih =>
    have hc : base + c < 200 := h c (List.mem_cons_self _ _)
    have ih' := ih (fun c' hc' => h c' (List.mem_cons_of_mem _ hc'))
    simp only [scanRow, get?_eq_read b hc, Option.bind_eq_bind, Option.some_bind, ih',
      List.all_cons]
    by_cases hz : b.read (base + c) = 0 <;> simp [hz]

theorem scanRow_row (b : Board) {r : Nat} (hr : r < 20) :
    scanRow b (r * GRID_W) (List.range GRID_W) = some (isFull (rowOf b r)) := by
  rw [scanRow_eq]
  · simp [isFull, rowOf, List.all_map, Function.comp_def]
  · intro c hc
    have : c < 10 := List.mem_range.mp hc
    simp only [GRID_W]; omega

theorem copyRow_eq (b : Board) {w row : Nat} (hw : w < row) (hr : row < 20) :
    ∃ b', copyRow w row b = some b' ∧
      ∀ j : Fin 200, b' j = if w * 10 ≤ j.val ∧ j.val < w * 10 + 10
        then b.read (row * 10 + (j.val - w * 10)) else b j := by
  have hstep : ∀ c (s : Board), c < 10 →
      (∀ j : Fin 200, s j = if w * 10 ≤ j.val ∧ j.val < w * 10 + c
        then b.read (row * 10 + (j.val - w * 10)) else b j) →
      ∃ s', ((s.get? (row * GRID_W + c)).bind fun v => s.set? (w * GRID_W + c) v) = some s' ∧
        ∀ j : Fin 200, s' j = if w * 10 ≤ j.val ∧ j.val < w * 10 + (c + 1)
          then b.read (row * 10 + (j.val - w * 10)) else b j := by
    intro c s hc hP
    have h1 : row * 10 + c < 200 := by omega
    have h2 : w * 10 + c < 200 := by omega
    have hread : s.read (row * 10 + c) = b.read (row * 10 + c) := by
      have := hP ⟨row * 10 + c, h1⟩
      rw [← read_fin s, ← read_fin b] at this
      simp only at this
      rw [this, if_neg (by omega)]
    refine ⟨_, by simp only [GRID_W]; rw [get?_eq_read s h1, Option.some_bind, set?_eq s h2], ?_⟩
    intro j
    by_cases hj : j.val = w * 10 + c
    · rw [if_pos hj, if_pos (by omega), hread, hj]
      congr 2; omega
    · rw [if_neg hj, hP j]
      by_cases hj2 : w * 10 ≤ j.val ∧ j.val < w * 10 + c
      · rw [if_pos hj2, if_pos (by omega)]
      · rw [if_neg hj2, if_neg (by omega)]
  obtain ⟨b', hb, hP⟩ := forRange_invariant
    (fun c (s : Board) => ∀ j : Fin 200, s j = if w * 10 ≤ j.val ∧ j.val < w * 10 + c
        then b.read (row * 10 + (j.val - w * 10)) else b j) 10 _
    hstep 10 0 b (by omega) (Nat.zero_le _) (by intro j; rw [if_neg (by omega)])
  exact ⟨b', hb, hP⟩

theorem zeroRow_eq (b : Board) {r : Nat} (hr : r < 20) :
    ∃ b', zeroRow r b = some b' ∧
      ∀ j : Fin 200, b' j = if r * 10 ≤ j.val ∧ j.val < r * 10 + 10 then 0 else b j := by
  have hstep : ∀ c (s : Board), c < 10 →
      (∀ j : Fin 200, s j = if r * 10 ≤ j.val ∧ j.val < r * 10 + c then 0 else b j) →
      ∃ s', s.set? (r * GRID_W + c) 0 = some s' ∧
        ∀ j : Fin 200, s' j = if r * 10 ≤ j.val ∧ j.val < r * 10 + (c + 1) then 0 else b j := by
    intro c s hc hP
    have h2 : r * 10 + c < 200 := by omega
    refine ⟨_, by simp only [GRID_W]; rw [set?_eq s h2], ?_⟩
    intro j
    by_cases hj : j.val = r * 10 + c
    · rw [if_pos hj, if_pos (by omega)]
    · rw [if_neg hj, hP j]
      by_cases hj2 : r * 10 ≤ j.val ∧ j.val < r * 10 + c
      · rw [if_pos hj2, if_pos (by omega)]
      · rw [if_neg hj2, if_neg (by omega)]
  obtain ⟨b', hb, hP⟩ := forRange_invariant
    (fun c (s : Board) => ∀ j : Fin 200, s j = if r * 10 ≤ j.val ∧ j.val < r * 10 + c
        then 0 else b j) 10 _
    hstep 10 0 b (by omega) (Nat.zero_le _) (by intro j; rw [if_neg (by omega)])
  exact ⟨b', hb, hP⟩

theorem read_eq (b : Board) {i : Nat} (h : i < 200) : b.read i = b ⟨i, h⟩ := by
  simp [Board.read, h]

theorem rowOf_congr {b b' : Board} {r r' : Nat}
    (h : ∀ c, c < 10 → b'.read (r' * 10 + c) = b.read (r * 10 + c)) : rowOf b' r' = rowOf b r := by
  simp only [rowOf, GRID_W]
  apply List.map_congr_left
  intro c hc
  exact h c (List.mem_range.mp hc)

theorem rowOf_copy {b b' : Board} {w row : Nat} (hw : w < row) (hr : row < 20)
    (h : ∀ j : Fin 200, b' j = if w * 10 ≤ j.val ∧ j.val < w * 10 + 10
        then b.read (row * 10 + (j.val - w * 10)) else b j) {r : Nat} (hr' : r < 20) :
    rowOf b' r = if r = w then rowOf b row else rowOf b r := by
  by_cases hrw : r = w
  · rw [if_pos hrw]
    apply rowOf_congr
    intro c hc
    have hlt : r * 10 + c < 200 := by omega
    rw [read_eq b' hlt, h, if_pos ⟨by simp only; omega, by simp only; omega⟩]
    congr 2; simp only; omega
  · rw [if_neg hrw]
    apply rowOf_congr
    intro c hc
    have hlt : r * 10 + c < 200 := by omega
    rw [read_eq b' hlt, h, if_neg (by simp only; omega), read_eq b hlt]

theorem clearLinesRow_inv (b0 : Board) (row : Nat) (s : Board × Nat) (hrow : row < 20)
    (hI : ClearInv b0 row s) :
    ∃ s', clearLinesRow row s = some s' ∧ ClearInv b0 (row + 1) s' := by
  obtain ⟨hle, hrest, hdone⟩ := hI
  have hrowEq : rowOf s.1 row = rowOf b0 row := hrest row (le_refl _) hrow
  simp only [clearLinesRow, scanRow_row s.1 hrow, Option.bind_eq_bind, Option.some_bind]
  by_cases hfull : isFull (rowOf s.1 row) = true
  · -- full row: nothing is written
    refine ⟨s, by simp [hfull], by omega, fun r h1 h2 => hrest r (by omega) h2, ?_⟩
    rw [hdone, List.range_succ, List.map_append, List.filter_append]
    simp [← hrowEq, hfull]
  · have hnf : isFull (rowOf s.1 row) = false := by simpa using hfull
    by_cases hwr : s.2 = row
    · refine ⟨(s.1, s.2 + 1), by simp [hnf, hwr], by simp only; omega,
        fun r h1 h2 => hrest r (by omega) h2, ?_⟩
      simp only
      rw [List.range_succ, List.map_append, hdone, List.range_succ, List.map_append,
        List.filter_append, hwr]
      simp [← hrowEq, hnf]
    · have hlt : s.2 < row := by omega
      obtain ⟨b', hb, hcells⟩ := copyRow_eq s.1 hlt hrow
      refine ⟨(b', s.2 + 1), by simp [hnf, hwr, hb], by simp only; omega, ?_, ?_⟩
      · intro r h1 h2
        simp only
        rw [rowOf_copy hlt hrow hcells h2, if_neg (by omega)]
        exact hrest r (by omega) h2
      · simp only
        rw [List.range_succ, List.map_append, List.range_succ, List.map_append,
          List.filter_append, ← hdone]
        have h1 : (List.range s.2).map (rowOf b') = (List.range s.2).map (rowOf s.1) := by
          apply List.map_congr_left
          intro r hr
          have hr' : r < s.2 := List.mem_range.mp hr
          rw [rowOf_copy hlt hrow hcells (by omega), if_neg (by omega)]
        rw [h1, List.map_singleton, rowOf_copy hlt hrow hcells (by omega), if_pos rfl]
        simp [← hrowEq, hnf]

theorem zeroRows_eq (b : Board) {w : Nat} (hw : w ≤ 20) :
    ∃ b', forRange w GRID_H zeroRow b = some b' ∧
      ∀ j : Fin 200, b' j = if w * 10 ≤ j.val then 0 else b j := by
  have hstep : ∀ r (s : Board), r < 20 →
      (w ≤ r ∧ ∀ j : Fin 200, s j = if w * 10 ≤ j.val ∧ j.val < r * 10 then 0 else b j) →
      ∃ s', zeroRow r s = some s' ∧
        (w ≤ r + 1 ∧ ∀ j : Fin 200, s' j = if w * 10 ≤ j.val ∧ j.val < (r + 1) * 10 then 0
          else b j) := by
    intro r s hr hP
    obtain ⟨hwr, hP⟩ := hP
    obtain ⟨s', hs, hc⟩ := zeroRow_eq s hr
    refine ⟨s', hs, by omega, ?_⟩
    intro j
    rw [hc j]
    by_cases hj : r * 10 ≤ j.val ∧ j.val < r * 10 + 10
    · rw [if_pos hj, if_pos (by omega)]
    · rw [if_neg hj, hP j]
      by_cases hj2 : w * 10 ≤ j.val ∧ j.val < r * 10
      · rw [if_pos hj2, if_pos (by omega)]
      · rw [if_neg hj2, if_neg (by omega)]
  obtain ⟨b', hb, -, hP⟩ := forRange_invariant
    (fun r (s : Board) => w ≤ r ∧ ∀ j : Fin 200, s j = if w * 10 ≤ j.val ∧ j.val < r * 10
        then 0 else b j) 20 _
    hstep (20 - w) w b rfl hw ⟨le_refl _, by intro j; rw [if_neg (by omega)]⟩
  refine ⟨b', hb, ?_⟩
  intro j
  rw [hP j]
  have := j.isLt
  by_cases hj : w * 10 ≤ j.val
  · rw [if_pos hj, if_pos ⟨hj, by omega⟩]
  · rw [if_neg hj, if_neg (by omega)]

/-- Outcome of `clearLines`: it returns, and the rows of the result are the non-full rows of the
input in their order, followed by one all-zero row per full row of the input. -/
theorem clearLines_rows (b : Board) :
    ∃ b', clearLines b = some b' ∧
      rowsOf b' = (rowsOf b).filter (fun x => !isFull x)
        ++ List.replicate ((rowsOf b).countP isFull) emptyRow := by
  obtain ⟨s, hs, hle, -, hdone⟩ := forRange_invariant (ClearInv b) 20 clearLinesRow
    (fun i s hi hI => clearLinesRow_inv b i s hi hI) 20 0 (b, 0) rfl (Nat.zero_le _)
    ⟨le_refl _, fun r _ _ => rfl, rfl⟩
  obtain ⟨b', hb, hcells⟩ := zeroRows_eq s.1 hle
  refine ⟨b', by simp only [clearLines, Option.bind_eq_bind]; rw [hs, Option.some_bind, hb], ?_⟩
  have hlen : s.2 = ((rowsOf b).filter fun x => !isFull x).length := by
    have := congrArg List.length hdone
    simpa [rowsOf] using this
  have hcount : (rowsOf b).countP isFull = 20 - s.2 := by
    have h1 := List.length_eq_countP_add_countP isFull (rowsOf b)
    have h2 : (rowsOf b).length = 20 := by simp [rowsOf]
    rw [hlen, ← List.countP_eq_length_filter]
    have h3 : List.countP (fun x => !isFull x) (rowsOf b)
        = List.countP (fun a => decide ¬isFull a = true) (rowsOf b) := by
      congr 1; funext x; cases isFull x <;> rfl
    omega
  have hsplit : List.range GRID_H = List.range s.2 ++ (List.range (20 - s.2)).map (s.2 + ·) := by
    rw [← List.range_add]; congr 1; simp only [GRID_H]; omega
  rw [hcount, rowsOf, hsplit, List.map_append]
  congr 1
  · have hdone' : (List.range s.2).map (rowOf s.1) = (rowsOf b).filter fun x => !isFull x :=
      hdone
    rw [← hdone']
    apply List.map_congr_left
    intro r hr
    have hr' : r < s.2 := List.mem_range.mp hr
    apply rowOf_congr
    intro c hc
    have hlt : r * 10 + c < 200 := by omega
    rw [read_eq b' hlt, hcells, if_neg (by simp only; omega), read_eq s.1 hlt]
  · rw [List.eq_replicate_iff]
    refine ⟨by simp, ?_⟩
    intro x hx
    simp only [List.mem_map, List.mem_range, exists_exists_and_eq_and] at hx
    obtain ⟨a, ha, rfl⟩ := hx
    simp only [rowOf, emptyRow, GRID_W]
    rw [List.eq_replicate_iff]
    refine ⟨by simp, ?_⟩
    intro v hv
    simp only [List.mem_map, List.mem_range] at hv
    obtain ⟨c, hc, rfl⟩ := hv
    have hlt : (s.2 + a) * 10 + c < 200 := by omega
    rw [read_eq b' hlt, hcells, if_pos (by simp only; omega)]

theorem rowsOf_getElem? (b : Board) {r : Nat} (hr : r < 20) :
    (rowsOf b)[r]? = some (rowOf b r) := by
  simp [rowsOf, List.getElem?_map, List.getElem?_range, hr]

theorem rowOf_getElem? (b : Board) (r : Nat) {c : Nat} (hc : c < 10) :
    (rowOf b r)[c]? = some (b.read (r * 10 + c)) := by
  simp [rowOf, List.getElem?_map, List.getElem?_range, hc]

/-- Every cell of the board is an entry of the row view. -/
theorem cell_in_rows (b : Board) (j : Fin 200) :
    ((rowsOf b)[j.val / 10]?.bind fun row => row[j.val % 10]?) = some (b j) := by
  have h1 : j.val / 10 < 20 := by omega
  have h2 : j.val % 10 < 10 := by omega
  rw [rowsOf_getElem? b h1, Option.some_bind, rowOf_getElem? b _ h2, ← read_fin b j]
  congr 2; omega

theorem rowsOf_injective {b b' : Board} (h : rowsOf b = rowsOf b') : b = b' := by
  funext j
  have h1 := cell_in_rows b j
  have h2 := cell_in_rows b' j
  rw [h] at h1
  rw [h1] at h2
  exact Option.some.inj h2

theorem isFull_emptyRow : isFull emptyRow = false := by decide

/-- Every cell of the board after `clearLines` is `0` or the value of a cell of the input. -/
theorem clearLines_cells (b : Board) :
    ∃ b', clearLines b = some b' ∧ ∀ j : Fin 200, b' j = 0 ∨ ∃ i : Fin 200, b' j = b i := by
  obtain ⟨b', hb, hrows⟩ := clearLines_rows b
  refine ⟨b', hb, ?_⟩
  intro j
  have h1 : j.val / 10 < 20 := by omega
  have h2 : j.val % 10 < 10 := by omega
  have hc := cell_in_rows b' j
  have hmem : rowOf b' (j.val / 10) ∈ rowsOf b' := by
    rw [List.mem_iff_getElem?]
    exact ⟨_, rowsOf_getElem? b' h1⟩
  rw [rowsOf_getElem? b' h1, Option.some_bind] at hc
  rw [hrows, List.mem_append] at hmem
  rcases hmem with hmem | hmem
  · right
    have hmem' := (List.mem_filter.mp hmem).1
    simp only [rowsOf, List.mem_map, List.mem_range] at hmem'
    obtain ⟨r0, hr0, hr0eq⟩ := hmem'
    rw [← hr0eq, rowOf_getElem? b r0 h2] at hc
    have hlt : r0 * 10 + j.val % 10 < 200 := by simp only [GRID_H] at hr0; omega
    refine ⟨⟨_, hlt⟩, ?_⟩
    rw [← read_eq b hlt]
    exact (Option.some.inj hc).symm
  · left
    have := List.eq_of_mem_replicate hmem
    rw [this] at hc
    have he : emptyRow[j.val % 10]? = some 0 := by
      simp [emptyRow, List.getElem?_replicate, h2]
    rw [he] at hc
    exact (Option.some.inj hc).symm

/-- On a board without a full row `clearLines` returns the board itself. -/
theorem clearLines_of_no_full (b : Board) (h : ∀ row ∈ rowsOf b, isFull row = false) :
    clearLines b = some b := by
  obtain ⟨b', hb, hrows⟩ := clearLines_rows b
  have hf : (rowsOf b).filter (fun x => !isFull x) = rowsOf b := by
    rw [List.filter_eq_self]
    intro row hrow
    simp [h row hrow]
  have hc : (rowsOf b).countP isFull = 0 := by
    rw [List.countP_eq_zero]
    intro row hrow
    simp [h row hrow]
  rw [hf, hc, List.replicate_zero, List.append_nil] at hrows
  rw [hb, rowsOf_injective hrows]

/-! ## The active piece -/

/-- Function `collides` reads the board and the kind of the active piece only. -/
theorem collides_congr (g g' : Game) (hb : g'.board = g.board) (hk : g'.cur.kind = g.cur.kind)
    (px py rot : Int) : collides g' px py rot = collides g px py rot := by
  simp only [collides, hb, hk]

theorem collides_false_iff (g : Game) (k rot : Nat) (hk : k < 7) (hkind : g.cur.kind = (k : Int))
    (px py : Int) :
    collides g px py (rot : Int) = some false
      ↔ ∀ c ∈ cellsAt (shapeOf k rot) px py, inGrid c.1 c.2 ∧ cellValue g.board c.1 c.2 = 0 := by
  rw [collides_eq g k rot hk hkind]
  simp only [Option.some.injEq, decide_eq_false_iff_not, not_exists, not_and, blocked]
  constructor
  · intro h c hc
    have := h c hc
    by_cases hg : inGrid c.1 c.2
    · refine ⟨hg, ?_⟩
      by_contra hv
      exact this (Or.inr ⟨hg, hv⟩)
    · exact absurd (Or.inl hg) this
  · intro h c hc hb
    obtain ⟨hg, hv⟩ := h c hc
    rcases hb with hb | hb
    · exact hb hg
    · exact hb.2 hv

theorem tryMove_safe (g : Game) (dx dy : Int) (h : Safe g) :
    ∃ r, tryMove g dx dy = some r ∧ Safe r.1 ∧ r.1.board = g.board := by
  obtain ⟨k, rot, hk, hkind, hrot, hlt, hfree⟩ := h
  have hc := collides_eq g k rot hk hkind (g.cur.x + dx) (g.cur.y + dy)
  rw [← hrot] at hc
  simp only [tryMove, hc, Option.bind_eq_bind, Option.some_bind]
  by_cases hb : ∃ c ∈ cellsAt (shapeOf k rot) (g.cur.x + dx) (g.cur.y + dy),
      blocked g.board c.1 c.2
  · refine ⟨(g, false), by simp [hb], ⟨k, rot, hk, hkind, hrot, hlt, hfree⟩, rfl⟩
  · refine ⟨(⟨g.board, ⟨g.cur.kind, g.cur.trot, g.cur.x + dx, g.cur.y + dy⟩⟩, true),
      by simp only [hb, decide_False, Bool.not_false, if_true], ?_, rfl⟩
    refine ⟨k, rot, hk, hkind, hrot, hlt, ?_⟩
    have := collides_congr g ⟨g.board, ⟨g.cur.kind, g.cur.trot, g.cur.x + dx, g.cur.y + dy⟩⟩
      rfl rfl (g.cur.x + dx) (g.cur.y + dy) g.cur.trot
    rw [this, hc]
    simp [hb]

theorem rotatePiece_safe (g : Game) (h : Safe g) :
    ∃ g', rotatePiece g = some g' ∧ Safe g' ∧ g'.board = g.board ∧ g'.cur.kind = g.cur.kind ∧
      g'.cur.x = g.cur.x ∧ g'.cur.y = g.cur.y := by
  obtain ⟨k, rot, hk, hkind, hrot, hlt, hfree⟩ := h
  have hnew : Int.tmod (g.cur.trot + 1) ((rotationsOf k).length : Int)
      = (((rot + 1) % (rotationsOf k).length : Nat) : Int) := by
    rw [hrot, Int.ofNat_tmod]; rfl
  have hc := collides_eq g k ((rot + 1) % (rotationsOf k).length) hk hkind g.cur.x g.cur.y
  simp only [rotatePiece, hkind, pieces_lookup hk, Option.bind_eq_bind, Option.some_bind]
  rw [← hkind, hnew, hc, Option.some_bind]
  by_cases hb : ∃ c ∈ cellsAt (shapeOf k ((rot + 1) % (rotationsOf k).length)) g.cur.x g.cur.y,
      blocked g.board c.1 c.2
  · exact ⟨g, by simp [hb], ⟨k, rot, hk, hkind, hrot, hlt, hfree⟩, rfl, rfl, rfl, rfl⟩
  · refine ⟨⟨g.board, ⟨g.cur.kind, (((rot + 1) % (rotationsOf k).length : Nat) : Int), g.cur.x,
        g.cur.y⟩⟩, by simp only [hb, decide_False, Bool.not_false, if_true], ?_, rfl, rfl, rfl, rfl⟩
    refine ⟨k, (rot + 1) % (rotationsOf k).length, hk, hkind, rfl,
      Nat.mod_lt _ (rotationsOf_pos hk), ?_⟩
    have := collides_congr g
      ⟨g.board, ⟨g.cur.kind, (((rot + 1) % (rotationsOf k).length : Nat) : Int), g.cur.x,
        g.cur.y⟩⟩
      rfl rfl g.cur.x g.cur.y (((rot + 1) % (rotationsOf k).length : Nat) : Int)
    rw [this, hc]
    simp [hb]

/-- At the spawn placement (rotation 0, origin `(3, 0)`) every cell of every kind is on the
grid. -/
theorem spawn_cells_inGrid {k : Nat} (hk : k < 7) :
    ∀ c ∈ cellsAt (shapeOf k 0) 3 0, inGrid c.1 c.2 := by
  interval_cases k <;> decide

theorem spawn_origin : (((GRID_W / 2 : Nat) : Int) - 2) = 3 := by decide

/-- Function `spawnPiece` for a kind `k` of the table: the new active piece, and the board,
cleared exactly when a spawn cell is occupied. -/
theorem spawnPiece_eq (g : Game) (k : Nat) (hk : k < 7) :
    spawnPiece g (k : Int) = some
      ⟨if ∃ c ∈ cellsAt (shapeOf k 0) 3 0, cellValue g.board c.1 c.2 ≠ 0 then fun _ => 0
        else g.board, ⟨(k : Int), 0, 3, 0⟩⟩ := by
  have hc := collides_eq ⟨g.board, ⟨(k : Int), 0, 3, 0⟩⟩ k 0 hk rfl 3 0
  simp only [Nat.cast_zero] at hc
  simp only [spawnPiece, spawn_origin, hc, Option.bind_eq_bind, Option.some_bind]
  have hiff : (∃ c ∈ cellsAt (shapeOf k 0) 3 0, blocked g.board c.1 c.2)
      ↔ ∃ c ∈ cellsAt (shapeOf k 0) 3 0, cellValue g.board c.1 c.2 ≠ 0 := by
    constructor
    · rintro ⟨c, hc, hb⟩
      rcases hb with hb | hb
      · exact absurd (spawn_cells_inGrid hk c hc) hb
      · exact ⟨c, hc, hb.2⟩
    · rintro ⟨c, hc, hv⟩
      exact ⟨c, hc, Or.inr ⟨spawn_cells_inGrid hk c hc, hv⟩⟩
  by_cases hb : ∃ c ∈ cellsAt (shapeOf k 0) 3 0, cellValue g.board c.1 c.2 ≠ 0
  · rw [if_pos (by simpa using hiff.mpr hb), clearBoard_eq, Option.some_bind, if_pos hb]
  · rw [if_neg (by simpa using fun h => hb (hiff.mp h)), if_neg hb]

theorem spawnPiece_safe (g : Game) (k : Nat) (hk : k < 7) :
    ∃ g', spawnPiece g (k : Int) = some g' ∧ Safe g' := by
  refine ⟨_, spawnPiece_eq g k hk, k, 0, hk, rfl, rfl, rotationsOf_pos hk, ?_⟩
  have h := collides_false_iff
    ⟨if ∃ c ∈ cellsAt (shapeOf k 0) 3 0, cellValue g.board c.1 c.2 ≠ 0 then fun _ => 0
        else g.board, ⟨(k : Int), 0, 3, 0⟩⟩ k 0 hk rfl 3 0
  simp only [Nat.cast_zero] at h
  rw [h]
  intro c hc
  refine ⟨spawn_cells_inGrid hk c hc, ?_⟩
  by_cases hb : ∃ c ∈ cellsAt (shapeOf k 0) 3 0, cellValue g.board c.1 c.2 ≠ 0
  · rw [if_pos hb]; simp [cellValue, Board.read]
  · rw [if_neg hb]
    by_contra hv
    exact hb ⟨c, hc, hv⟩

theorem validBoard_zero : validBoard (fun _ => 0) := by
  intro j; show 0 < colors.length; decide

theorem validBoard_locked {b : Board} (h : validBoard b) (cells : List (Int × Int)) (k : Nat) :
    validBoard (lockedBoard b cells (lockColor k)) := by
  intro j
  simp only [lockedBoard]
  split
  · have : k % 6 < 6 := Nat.mod_lt _ (by decide)
    have hc : colors.length = 7 := rfl
    simp only [lockColor, hc]; omega
  · exact h j

theorem validBoard_clearLines {b : Board} (h : validBoard b) :
    ∃ b', clearLines b = some b' ∧ validBoard b' := by
  obtain ⟨b', hb, hcells⟩ := clearLines_cells b
  refine ⟨b', hb, ?_⟩
  intro j
  rcases hcells j with h0 | ⟨i, hi⟩
  · rw [h0]; show 0 < colors.length; decide
  · rw [hi]; exact h i

theorem validBoard_spawn {g : Game} (h : validBoard g.board) (k : Nat) (hk : k < 7) :
    ∃ g', spawnPiece g (k : Int) = some g' ∧ Safe g' ∧ validBoard g'.board := by
  obtain ⟨g', hg', hs⟩ := spawnPiece_safe g k hk
  refine ⟨g', hg', hs, ?_⟩
  rw [spawnPiece_eq g k hk] at hg'
  rw [← Option.some.inj hg']
  simp only
  split
  · exact validBoard_zero
  · exact h

/-- One engine call keeps the active piece free and the board within the palette. -/
theorem exec_inv (g : Game) (c : Call) (hc : c.ok = true) (h : Safe g)
    (hv : validBoard g.board) :
    ∃ g', exec g c = some g' ∧ Safe g' ∧ validBoard g'.board := by
  cases c with
  | moveLeft =>
    obtain ⟨r, hr, hs, hb⟩ := tryMove_safe g (-1) 0 h
    exact ⟨r.1, by simp [exec, hr], hs, by rw [hb]; exact hv⟩
  | moveRight =>
    obtain ⟨r, hr, hs, hb⟩ := tryMove_safe g 1 0 h
    exact ⟨r.1, by simp [exec, hr], hs, by rw [hb]; exact hv⟩
  | softDrop =>
    obtain ⟨r, hr, hs, hb⟩ := tryMove_safe g 0 1 h
    exact ⟨r.1, by simp [exec, hr], hs, by rw [hb]; exact hv⟩
  | rotate =>
    obtain ⟨g', hg, hs, hb, -⟩ := rotatePiece_safe g h
    exact ⟨g', hg, hs, by rw [hb]; exact hv⟩
  | gravity k =>
    obtain ⟨r, hr, hs, hb⟩ := tryMove_safe g 0 1 h
    have hk : 0 ≤ k ∧ k < 7 := by simpa [Call.ok] using hc
    obtain ⟨hk0, hk7⟩ := hk
    simp only [exec, hr, Option.bind_eq_bind, Option.some_bind]
    by_cases hmoved : r.2 = true
    · exact ⟨r.1, by simp [hmoved], hs, by rw [hb]; exact hv⟩
    · obtain ⟨k1, rot1, hk1, hkind1, hrot1, -, -⟩ := hs
      have hl := lockPiece_eq r.1 k1 rot1 hk1 hkind1 hrot1
      have hv1 : validBoard (lockedBoard r.1.board
          (cellsAt (shapeOf k1 rot1) r.1.cur.x r.1.cur.y) (lockColor k1)) :=
        validBoard_locked (by rw [hb]; exact hv) _ _
      obtain ⟨b', hb', hv2⟩ := validBoard_clearLines hv1
      have hkn : k = ((k.toNat : Nat) : Int) := by omega
      have hv3 : validBoard (Game.mk b' r.1.cur).board := hv2
      obtain ⟨g', hg', hs', hv'⟩ := validBoard_spawn hv3 k.toNat (by omega)
      rw [← hkn] at hg'
      refine ⟨g', ?_, hs', hv'⟩
      simp only [hmoved, Bool.not_false, if_true, hl, Option.some_bind, hb']
      exact hg'

theorem run_inv (cs : List Call) : ∀ (g : Game), (∀ c ∈ cs, c.ok = true) → Safe g →
    validBoard g.board → ∃ g', run g cs = some g' ∧ Safe g' ∧ validBoard g'.board := by
  induction cs with
  | nil => intro g _ h hv; exact ⟨g, rfl, h, hv⟩
  | cons c rest ih =>
    intro g hok h hv
    obtain ⟨g1, hg1, hs1, hv1⟩ := exec_inv g c (hok c (List.mem_cons_self _ _)) h hv
    obtain ⟨g2, hg2, hs2, hv2⟩ :=
      ih g1 (fun c' hc' => hok c' (List.mem_cons_of_mem _ hc')) hs1 hv1
    refine ⟨g2, ?_, hs2, hv2⟩
    simp only [run, List.foldlM_cons, hg1, Option.bind_eq_bind, Option.some_bind]
    exact hg2

theorem start_inv (g : Game) (k : Nat) (hk : k < 7) :
    ∃ g', start g (k : Int) = some g' ∧ Safe g' ∧ validBoard g'.board := by
  have hv : validBoard (Game.mk (fun _ => 0) g.cur).board := validBoard_zero
  obtain ⟨g', hg', hs, hv'⟩ := validBoard_spawn hv k hk
  exact ⟨g', by simp only [start, clearBoard_eq, Option.bind_eq_bind, Option.some_bind]; exact hg',
    hs, hv'⟩

/-- Every state the main loop reaches: the program returns it (no panic), its active piece is
free and its board holds palette indices only. -/
theorem reachable_inv (g0 : Game) (k0 : Nat) (hk0 : k0 < 7) (cs : List Call)
    (hok : ∀ c ∈ cs, c.ok = true) :
    ∃ g, (start g0 (k0 : Int)).bind (fun g1 => run g1 cs) = some g ∧ Safe g ∧
      validBoard g.board := by
  obtain ⟨g1, hg1, hs1, hv1⟩ := start_inv g0 k0 hk0
  obtain ⟨g, hg, hs, hv⟩ := run_inv cs g1 hok hs1 hv1
  exact ⟨g, by rw [hg1, Option.some_bind]; exact hg, hs, hv⟩

/-! ## Repeated rotation -/

theorem rotationsOf_length {k : Nat} (hk : k < 7) :
    (rotationsOf k).length = 1 ∨ (rotationsOf k).length = 2 ∨ (rotationsOf k).length = 4 := by
  interval_cases k <;> decide

theorem freeAt_eq (g : Game) (k : Nat) (hk : k < 7) (hkind : g.cur.kind = (k : Int)) (r : Nat) :
    collides g g.cur.x g.cur.y (r : Int) = some (!freeAt g r) := by
  have hc := collides_eq g k r hk hkind g.cur.x g.cur.y
  by_cases hb : ∃ c ∈ cellsAt (shapeOf k r) g.cur.x g.cur.y, blocked g.board c.1 c.2
  · simp only [hb, decide_True] at hc
    simp [freeAt, hc]
  · simp only [hb, decide_False] at hc
    simp [freeAt, hc]

theorem freeAt_true_iff (g : Game) (r : Nat) :
    freeAt g r = true ↔ collides g g.cur.x g.cur.y (r : Int) = some false := by
  simp [freeAt]

theorem freeAt_false_iff (g : Game) (k : Nat) (hk : k < 7) (hkind : g.cur.kind = (k : Int))
    (r : Nat) : freeAt g r = false ↔ collides g g.cur.x g.cur.y (r : Int) = some true := by
  rw [freeAt_eq g k hk hkind r]
  cases freeAt g r <;> simp

/-- One call of `rotatePiece`: it returns, and moves the rotation index on to `(rot + 1) mod R`
when that state is free at the piece's position; otherwise nothing changes. -/
theorem rotatePiece_eq (g : Game) (k rot : Nat) (hk : k < 7) (hkind : g.cur.kind = (k : Int))
    (hrot : g.cur.trot = (rot : Int)) :
    rotatePiece g = some ⟨g.board, ⟨g.cur.kind,
      ((if freeAt g ((rot + 1) % (rotationsOf k).length)
        then (rot + 1) % (rotationsOf k).length else rot : Nat) : Int), g.cur.x, g.cur.y⟩⟩ := by
  have hnew : Int.tmod (g.cur.trot + 1) ((rotationsOf k).length : Int)
      = (((rot + 1) % (rotationsOf k).length : Nat) : Int) := by
    rw [hrot, Int.ofNat_tmod]; rfl
  simp only [rotatePiece, hkind, pieces_lookup hk, Option.bind_eq_bind, Option.some_bind]
  rw [← hkind, hnew, freeAt_eq g k hk hkind, Option.some_bind]
  cases hf : freeAt g ((rot + 1) % (rotationsOf k).length)
  · simp only [Bool.not_false, Bool.not_true, if_false, Bool.false_eq_true, ← hrot]
  · simp only [Bool.not_true, Bool.not_false, if_true]

/-- The result of `n` calls of `rotatePiece`: the calls return, only the rotation index
changes, and it follows `settle`. -/
theorem rotateTimes_eq (k : Nat) (hk : k < 7) (n : Nat) : ∀ (g : Game) (rot : Nat),
    g.cur.kind = (k : Int) → g.cur.trot = (rot : Int) →
    rotateTimes n g = some ⟨g.board, ⟨g.cur.kind,
      ((settle (freeAt g) (rotationsOf k).length n rot : Nat) : Int), g.cur.x, g.cur.y⟩⟩ := by
  induction n with
  | zero =>
    intro g rot hkind hrot
    simp only [rotateTimes, settle, ← hrot]
  | succ n ih =>
    intro g rot hkind hrot
    have h1 := rotatePiece_eq g k rot hk hkind hrot
    have hfun : ∀ (t : Int), freeAt ⟨g.board, ⟨g.cur.kind, t, g.cur.x, g.cur.y⟩⟩ = freeAt g := by
      intro t
      funext r
      simp only [freeAt]
      rw [collides_congr g ⟨g.board, ⟨g.cur.kind, t, g.cur.x, g.cur.y⟩⟩ rfl rfl]
    rw [rotateTimes, h1, Option.some_bind]
    cases hf : freeAt g ((rot + 1) % (rotationsOf k).length)
    · simp only [Bool.false_eq_true, if_false]
      rw [ih ⟨g.board, ⟨g.cur.kind, (rot : Int), g.cur.x, g.cur.y⟩⟩ rot hkind rfl]
      simp only [hfun, settle, hf, Bool.false_eq_true, if_false]
    · simp only [if_true]
      rw [ih ⟨g.board, ⟨g.cur.kind, (((rot + 1) % (rotationsOf k).length : Nat) : Int), g.cur.x,
        g.cur.y⟩⟩ ((rot + 1) % (rotationsOf k).length) hkind rfl]
      simp only [hfun, settle, hf, if_true]

theorem settle_blocked (free : Nat → Bool) (R i : Nat) (h : free ((i + 1) % R) = false) :
    ∀ n, settle free R n i = i := by
  intro n
  induction n with
  | zero => rfl
  | succ n ih => simp only [settle, h, Bool.false_eq_true, if_false, ih]

theorem settle_lt (free : Nat → Bool) (R : Nat) (hR : 0 < R) :
    ∀ n i, i < R → settle free R n i < R := by
  intro n
  induction n with
  | zero => intro i hi; exact hi
  | succ n ih =>
    intro i hi
    simp only [settle]
    split
    · exact ih _ (Nat.mod_lt _ hR)
    · exact ih _ hi

/-- When `R` calls bring the index back, for `R` one of the counts 1, 2, 4 of the table and a
piece whose own state is free: exactly when the first call is blocked, or the index is one of
`0..R-1` and all `R` states are free. -/
theorem settle_iff (free : Nat → Bool) (R : Nat) (hR : R = 1 ∨ R = 2 ∨ R = 4) (rot : Nat)
    (hfree : free (rot % R) = true) :
    settle free R R rot = rot ↔
      (free ((rot + 1) % R) = false ∨ (rot < R ∧ ∀ r : Nat, r < R → free r = true)) := by
  have hpos : 0 < R := by omega
  by_cases hnext : free ((rot + 1) % R) = false
  · simp only [settle_blocked free R rot hnext, hnext, true_or]
  · have hnext' : free ((rot + 1) % R) = true := by simpa using hnext
    by_cases hlt : rot < R
    · rw [Nat.mod_eq_of_lt hlt] at hfree
      simp only [hnext', Bool.true_eq_false, false_or, hlt, true_and]
      rcases hR with rfl | rfl | rfl
      · interval_cases rot
        simp only [settle] at *
        constructor
        · intro _ r hr
          interval_cases r
          exact hfree
        · intro _; simp
      · interval_cases rot
        · simp only [settle, Nat.zero_add, Nat.reduceMod, Nat.reduceAdd] at *
          constructor
          · intro _ r hr
            interval_cases r
            · exact hfree
            · exact hnext'
          · intro h; simp [h 0 (by omega), h 1 (by omega)]
        · simp only [settle, Nat.reduceAdd, Nat.reduceMod, Nat.zero_add] at *
          constructor
          · intro _ r hr
            interval_cases r
            · exact hnext'
            · exact hfree
          · intro h; simp [h 0 (by omega), h 1 (by omega)]
      · constructor
        · intro h r hr
          interval_cases rot <;> interval_cases r <;>
            simp only [settle, Nat.zero_add, Nat.reduceAdd, Nat.reduceMod] at * <;>
            (cases h0 : free 0 <;> cases h1 : free 1 <;> cases h2 : free 2 <;>
              cases h3 : free 3 <;> simp_all)
        · intro h
          have h0 := h 0 (by omega)
          have h1 := h 1 (by omega)
          have h2 := h 2 (by omega)
          have h3 := h 3 (by omega)
          interval_cases rot <;> simp [settle, h0, h1, h2, h3]
    · have hne : settle free R R rot ≠ rot := by
        have hR' : R = (R - 1) + 1 := by omega
        rw [hR']
        simp only [settle]
        rw [← hR', if_pos hnext']
        have := settle_lt free R hpos (R - 1) ((rot + 1) % R) (Nat.mod_lt _ hpos)
        omega
      simp only [hne, hnext', Bool.true_eq_false, hlt, false_and, or_false]

/-! ## Claims -/

/-- C1 (the code breaks it): on a board whose bottom row 19 is the one full row and whose row 18
holds two blocks, `clearLines` empties row 19 and leaves row 18 where it is; the rows above the
cleared row do not move down and the vacated row is at the bottom, not at the top. -/
theorem C1_clearLines_compacts_upward :
    rowsOf floatBoard = List.replicate 18 emptyRow
        ++ [[0, 0, 0, 0, 0, 0, 0, 0, 2, 2], [1, 1, 1, 1, 1, 1, 1, 1, 2, 2]] ∧
    (clearLines floatBoard).map rowsOf
      = some (List.replicate 18 emptyRow ++ [[0, 0, 0, 0, 0, 0, 0, 0, 2, 2], emptyRow]) ∧
    (clearLines floatBoard).map rowsOf
      ≠ some (List.replicate 19 emptyRow ++ [[0, 0, 0, 0, 0, 0, 0, 0, 2, 2]]) := by
  decide

/-- C2: for every board, `clearLines` returns a board of 20 rows none of which is full, whose
rows are the non-full rows of the input, in their order and unchanged, together with exactly
one all-zero row per full row of the input (these follow the kept rows). -/
theorem C2_clearLines_stable_compaction (b : Board) :
    ∃ b', clearLines b = some b' ∧ (rowsOf b').length = 20 ∧
      (∀ row ∈ rowsOf b', isFull row = false) ∧
      rowsOf b' = (rowsOf b).filter (fun row => !isFull row)
        ++ List.replicate ((rowsOf b).countP isFull) emptyRow := by
  obtain ⟨b', hb, hrows⟩ := clearLines_rows b
  refine ⟨b', hb, by simp [rowsOf], ?_, hrows⟩
  intro row hrow
  rw [hrows, List.mem_append] at hrow
  rcases hrow with h | h
  · simpa using (List.mem_filter.mp h).2
  · rw [List.eq_of_mem_replicate h]; exact isFull_emptyRow

/-- C2 at the board `floatBoard`, which has one full row. -/
theorem C2_clearLines_stable_compaction_witness :
    ∃ b', clearLines floatBoard = some b' ∧ (rowsOf b').length = 20 ∧
      (∀ row ∈ rowsOf b', isFull row = false) ∧
      rowsOf b' = (rowsOf floatBoard).filter (fun row => !isFull row)
        ++ List.replicate ((rowsOf floatBoard).countP isFull) emptyRow :=
  C2_clearLines_stable_compaction floatBoard

/-- The start of `main` yields the empty board and a fresh piece, whatever the globals were. -/
theorem start_eq (g : Game) (k : Nat) (hk : k < 7) :
    start g (k : Int) = some ⟨fun _ => 0, ⟨(k : Int), 0, 3, 0⟩⟩ := by
  have h := spawnPiece_eq ⟨fun _ => 0, g.cur⟩ k hk
  have hn : ¬ ∃ c ∈ cellsAt (shapeOf k 0) 3 0,
      cellValue (Game.mk (fun _ => 0) g.cur).board c.1 c.2 ≠ 0 := by
    rintro ⟨c, -, hv⟩
    exact hv (by simp [cellValue, Board.read])
  rw [if_neg hn] at h
  simp only [start, clearBoard_eq, Option.bind_eq_bind, Option.some_bind]
  exact h

set_option maxRecDepth 1000000 in
/-- The board `floatBoard` arises in play: after `floatPlay` the `O` piece rests at `(7, 18)`,
the next `tryMove(0,1)` fails, and `lockPiece` then hands `floatBoard` to `clearLines`. -/
theorem floatBoard_in_play :
    (((start bootGame 0).bind fun g => run g floatPlay).bind fun g =>
      (tryMove g 0 1).bind fun r => (lockPiece r.1).map fun g1 => (g.cur, r.2, rowsOf g1.board))
      = some (⟨1, 0, 7, 18⟩, false, rowsOf floatBoard) := by
  have h := start_eq bootGame 0 (by decide)
  simp only [Nat.cast_zero] at h
  rw [h]
  decide!

set_option maxRecDepth 1000000 in
/-- C3 (fails as stated): with the left button sampled `[true, false, false, true, false]` over
5 passes of the loop, `tryMove(-1,0)` is issued on passes 2, 3 and 5, three times and not two;
started with an `O` piece at `x = 3`, the piece ends at `x = 0`. -/
theorem C3_counterexample :
    fireTicks Dir.left ([true, false, false, true, false].map (sampleTick Dir.left)) = [2, 3, 5] ∧
    fireTicks Dir.left ([true, false, false, true, false].map (sampleTick Dir.left)) ≠ [2, 5] ∧
    ((start bootGame 1).bind fun g =>
      ([true, false, false, true, false].map (sampleTick Dir.left)).foldlM tick g).map
        (fun g => g.cur) = some ⟨1, 0, 0, 0⟩ := by
  decide

/-- C3 (amended): in each pass of the main loop a button issues its call exactly once when its
sample is pressed (`false`) and not at all when it is released, whatever the sample of the pass
before; for the samples `[true, false, false, true, false]` of one button the call is issued
on passes 2, 3 and 5. -/
theorem C3_level_triggered (d : Dir) (t : Tick) :
    (tickCalls t).count d.call = (if t.sample d then 0 else 1) ∧
    fireTicks d ([true, false, false, true, false].map (sampleTick d)) = [2, 3, 5] := by
  constructor
  · cases d <;> cases t with
    | mk l u r dn due k =>
      cases l <;> cases u <;> cases r <;> cases dn <;> cases due <;>
        simp [tickCalls, Dir.call, Tick.sample]
  · cases d <;> decide

/-- C3 (amended) at the left button and a pass in which it is sampled pressed. -/
theorem C3_level_triggered_witness :
    (tickCalls (sampleTick Dir.left false)).count Dir.left.call
      = (if (sampleTick Dir.left false).sample Dir.left then 0 else 1) ∧
    fireTicks Dir.left ([true, false, false, true, false].map (sampleTick Dir.left))
      = [2, 3, 5] :=
  C3_level_triggered Dir.left (sampleTick Dir.left false)

set_option maxRecDepth 1000000 in
/-- C4 (fails as stated): in the game `pegPlay` an `O` piece lies locked on the floor in
columns 4-5 and a `J` piece stands free in rotation 0 at `(2, 16)`; of 4 calls of
`rotatePiece` (`J` has `R = 4` states) the first succeeds and the next three are blocked by the
`O` block at `(4, 18)`, so the piece ends in rotation 1, not 0. -/
theorem C4_counterexample :
    (rotationsOf 5).length = 4 ∧
    (((start bootGame 1).bind fun g => run g pegPlay).bind fun g =>
      (rotateTimes 4 g).map fun g' =>
        (g.cur, (rowsOf g.board).drop 17, collides g g.cur.x g.cur.y g.cur.trot, g'.cur))
      = some (⟨5, 0, 2, 16⟩,
          [emptyRow, [0, 0, 0, 0, 2, 2, 0, 0, 0, 0], [0, 0, 0, 0, 2, 2, 0, 0, 0, 0]],
          some false, ⟨5, 1, 2, 16⟩) := by
  refine ⟨by decide, ?_⟩
  have h := start_eq bootGame 1 (by decide)
  simp only [Nat.cast_one] at h
  rw [h]
  decide!

/-- C4 (amended): for a non-colliding active piece of a kind `k` with `R` rotation states and a
rotation index `rot ≥ 0`, `R` calls of `rotatePiece` return and leave the board, the kind and
the position `(x, y)` unchanged; the rotation index after them is the original one exactly when
either the first call is blocked (state `(rot + 1) mod R` collides at `(x, y)`, and then no call
changes anything) or `rot` is one of `0..R-1` and none of the `R` states collides at `(x, y)`.
In particular it is the original one for every kind with `R ≤ 2` and `rot < R`. -/
theorem C4_rotate_wraps (g : Game) (k rot : Nat) (hk : k < 7) (hkind : g.cur.kind = (k : Int))
    (hrot : g.cur.trot = (rot : Int))
    (hfree : collides g g.cur.x g.cur.y g.cur.trot = some false) :
    ∃ g', rotateTimes (rotationsOf k).length g = some g' ∧ g'.board = g.board ∧
      g'.cur.kind = g.cur.kind ∧ g'.cur.x = g.cur.x ∧ g'.cur.y = g.cur.y ∧
      (g'.cur.trot = g.cur.trot ↔
        (collides g g.cur.x g.cur.y (((rot + 1) % (rotationsOf k).length : Nat) : Int)
            = some true ∨
          (rot < (rotationsOf k).length ∧ ∀ r : Nat, r < (rotationsOf k).length →
            collides g g.cur.x g.cur.y (r : Int) = some false))) ∧
      (rot < (rotationsOf k).length → (rotationsOf k).length ≤ 2 →
        g'.cur.trot = g.cur.trot) := by
  have hR := rotationsOf_length hk
  have hcur : freeAt g (rot % (rotationsOf k).length) = true := by
    rw [freeAt_true_iff, collides_eq g k _ hk hkind]
    rw [hrot, collides_eq g k rot hk hkind] at hfree
    have hs : shapeOf k (rot % (rotationsOf k).length) = shapeOf k rot := by
      simp only [shapeOf, Nat.mod_mod]
    rw [hs]
    exact hfree
  have hiff := settle_iff (freeAt g) (rotationsOf k).length hR rot hcur
  have hiff' : ((settle (freeAt g) (rotationsOf k).length (rotationsOf k).length rot : Nat) : Int)
        = g.cur.trot ↔
      (collides g g.cur.x g.cur.y (((rot + 1) % (rotationsOf k).length : Nat) : Int)
          = some true ∨
        (rot < (rotationsOf k).length ∧ ∀ r : Nat, r < (rotationsOf k).length →
          collides g g.cur.x g.cur.y (r : Int) = some false)) := by
    rw [hrot, Nat.cast_inj, hiff, freeAt_false_iff g k hk hkind]
    simp only [freeAt_true_iff]
  refine ⟨_, rotateTimes_eq k hk (rotationsOf k).length g rot hkind hrot, rfl, rfl, rfl, rfl,
    hiff', ?_⟩
  intro hlt hle
  rw [hiff']
  by_cases hnext : freeAt g ((rot + 1) % (rotationsOf k).length) = false
  · exact Or.inl ((freeAt_false_iff g k hk hkind _).mp hnext)
  · have hnext' : freeAt g ((rot + 1) % (rotationsOf k).length) = true := by simpa using hnext
    rw [Nat.mod_eq_of_lt hlt] at hcur
    refine Or.inr ⟨hlt, ?_⟩
    intro r hr
    rw [← freeAt_true_iff]
    rcases hR with h1 | h2 | h4
    · rw [h1] at hr hlt
      have hr0 : r = rot := by omega
      rw [hr0]; exact hcur
    · rw [h2] at hr hlt hnext'
      by_cases hr0 : r = rot
      · rw [hr0]; exact hcur
      · have : r = (rot + 1) % 2 := by omega
        rw [this]; exact hnext'
    · omega

/-- C4 (amended) at a `T` piece at the spawn origin of the empty board, where all 4 rotation
states are free, and at an upright `I` piece at the left wall, whose rotation is blocked: both
end 4 resp. 2 calls of `rotatePiece` as they began. -/
theorem C4_rotate_wraps_witness :
    (∃ g', rotateTimes 4 freeGame = some g' ∧ g'.cur = freeGame.cur) ∧
    (∃ g', rotateTimes 2 wallGame = some g' ∧ g'.cur = wallGame.cur) := by
  constructor
  · obtain ⟨g', h1, -, h3, h4, h5, h6, -⟩ :=
      C4_rotate_wraps freeGame 2 0 (by decide) rfl rfl (by decide)
    have h7 := h6.mpr (Or.inr (by decide))
    refine ⟨g', h1, ?_⟩
    cases hc : g'.cur with
    | mk kd tr x y =>
      rw [hc] at h3 h4 h5 h7
      simp only at h3 h4 h5 h7
      rw [h3, h4, h5, h7]
  · obtain ⟨g', h1, -, h3, h4, h5, h6, -⟩ :=
      C4_rotate_wraps wallGame 0 1 (by decide) rfl rfl (by decide)
    have h7 := h6.mpr (Or.inl (by decide))
    refine ⟨g', h1, ?_⟩
    cases hc : g'.cur with
    | mk kd tr x y =>
      rw [hc] at h3 h4 h5 h7
      simp only at h3 h4 h5 h7
      rw [h3, h4, h5, h7]

/-- C5: for every board, every active piece of a kind `k` in `0..6`, every rotation index
`rot ≥ 0` and all `px`, `py`, `collides(px, py, rot)` returns, and returns `true` exactly when
one of the 4 cells `(px+dx, py+dy)` of rotation state `rot mod R` of kind `k` is off the grid
`[0,10) x [0,20)` or on a board cell that is not `0`. It is a function of the globals and
yields no new ones. -/
theorem C5_collides_iff (g : Game) (k rot : Nat) (hk : k < 7) (hkind : g.cur.kind = (k : Int))
    (px py : Int) :
    (cellsAt (shapeOf k rot) px py).length = 4 ∧
    ∃ r, collides g px py (rot : Int) = some r ∧
      (r = true ↔ ∃ c ∈ cellsAt (shapeOf k rot) px py,
        ¬ inGrid c.1 c.2 ∨ (inGrid c.1 c.2 ∧ cellValue g.board c.1 c.2 ≠ 0)) := by
  constructor
  · obtain ⟨a0, b0, a1, b1, a2, b2, a3, b3, hs⟩ := shapeOf_eight hk rot
    simp [hs, cellsAt, offsets]
  · refine ⟨_, collides_eq g k rot hk hkind px py, ?_⟩
    simp only [decide_eq_true_eq, blocked]

/-- C5 at a `J` piece of `pegBoard`, rotation 1, origin `(8, 0)`. -/
theorem C5_collides_iff_witness :
    (cellsAt (shapeOf 5 1) 8 0).length = 4 ∧
    ∃ r, collides pegGame 8 0 ((1 : Nat) : Int) = some r ∧
      (r = true ↔ ∃ c ∈ cellsAt (shapeOf 5 1) 8 0,
        ¬ inGrid c.1 c.2 ∨ (inGrid c.1 c.2 ∧ cellValue pegGame.board c.1 c.2 ≠ 0)) :=
  C5_collides_iff pegGame 5 1 (by decide) rfl 8 0

theorem offsets_table : ∀ rots ∈ pieces, ∀ shape ∈ rots,
    shape.length = 8 ∧ (offsets shape).length = 4 ∧ (offsets shape).Nodup := by decide

theorem cellsAt_nodup {k : Nat} (hk : k < 7) (rot : Nat) (px py : Int) :
    (cellsAt (shapeOf k rot) px py).Nodup := by
  have h := (offsets_table _ (rotationsOf_mem hk) _ (shapeOf_mem hk rot)).2.2
  refine List.Nodup.map ?_ h
  intro c c' hcc
  simp only [Prod.mk.injEq] at hcc
  exact Prod.ext (by omega) (by omega)

theorem cellsAt_length {k : Nat} (hk : k < 7) (rot : Nat) (px py : Int) :
    (cellsAt (shapeOf k rot) px py).length = 4 := by
  have h := (offsets_table _ (rotationsOf_mem hk) _ (shapeOf_mem hk rot)).2.1
  simp [cellsAt, h]

theorem cellValue_eq (b : Board) {x y : Int} (h : inGrid x y) :
    cellValue b x y = b ⟨cellIndex x y, cellIndex_lt h⟩ := by
  show b.read (cellIndex x y) = _
  exact read_eq b (cellIndex_lt h)

/-- C6: every rotation state of each of the 7 kinds is 4 pairwise distinct `(x, y)` offsets; and
for a piece of kind `k` that does not collide at its placement, `lockPiece` returns, the piece's
4 absolute cells are 4 distinct board cells on the grid, each is `0` before and
`(k mod 6) + 1` after, and every other board cell is unchanged. -/
theorem C6_lockPiece_four_cells (g : Game) (k rot : Nat) (hk : k < 7)
    (hkind : g.cur.kind = (k : Int)) (hrot : g.cur.trot = (rot : Int))
    (hfree : collides g g.cur.x g.cur.y g.cur.trot = some false) :
    (pieces.length = 7 ∧ ∀ rots ∈ pieces, ∀ shape ∈ rots,
      shape.length = 8 ∧ (offsets shape).length = 4 ∧ (offsets shape).Nodup) ∧
    ∃ g', lockPiece g = some g' ∧ g'.cur = g.cur ∧
      (cellsAt (shapeOf k rot) g.cur.x g.cur.y).length = 4 ∧
      ((cellsAt (shapeOf k rot) g.cur.x g.cur.y).map fun c => cellIndex c.1 c.2).Nodup ∧
      (∀ c ∈ cellsAt (shapeOf k rot) g.cur.x g.cur.y, inGrid c.1 c.2 ∧
        cellValue g.board c.1 c.2 = 0 ∧ cellValue g'.board c.1 c.2 = k % 6 + 1) ∧
      (∀ j : Fin 200, (∀ c ∈ cellsAt (shapeOf k rot) g.cur.x g.cur.y,
        cellIndex c.1 c.2 ≠ j.val) → g'.board j = g.board j) := by
  refine ⟨⟨rfl, offsets_table⟩, ?_⟩
  rw [hrot] at hfree
  have hcells := (collides_false_iff g k rot hk hkind g.cur.x g.cur.y).mp hfree
  refine ⟨_, lockPiece_eq g k rot hk hkind hrot, rfl, cellsAt_length hk rot _ _, ?_, ?_, ?_⟩
  · refine List.Nodup.map_on ?_ (cellsAt_nodup hk rot _ _)
    intro c hc c' hc' he
    have := cellIndex_inj (hcells c hc).1 (hcells c' hc').1 he
    exact Prod.ext this.1 this.2
  · intro c hc
    obtain ⟨hg, hv⟩ := hcells c hc
    refine ⟨hg, hv, ?_⟩
    rw [cellValue_eq _ hg]
    simp only [lockedBoard, lockColor]
    rw [if_pos ⟨c, hc, hg, rfl⟩]
  · intro j hj
    simp only [lockedBoard]
    rw [if_neg]
    rintro ⟨c, hc, -, he⟩
    exact hj c hc he

/-- C6 at the `J` piece of `pegGame`. -/
theorem C6_lockPiece_four_cells_witness :
    (pieces.length = 7 ∧ ∀ rots ∈ pieces, ∀ shape ∈ rots,
      shape.length = 8 ∧ (offsets shape).length = 4 ∧ (offsets shape).Nodup) ∧
    ∃ g', lockPiece pegGame = some g' ∧ g'.cur = pegGame.cur ∧
      (cellsAt (shapeOf 5 0) pegGame.cur.x pegGame.cur.y).length = 4 ∧
      ((cellsAt (shapeOf 5 0) pegGame.cur.x pegGame.cur.y).map fun c =>
        cellIndex c.1 c.2).Nodup ∧
      (∀ c ∈ cellsAt (shapeOf 5 0) pegGame.cur.x pegGame.cur.y, inGrid c.1 c.2 ∧
        cellValue pegGame.board c.1 c.2 = 0 ∧ cellValue g'.board c.1 c.2 = 5 % 6 + 1) ∧
      (∀ j : Fin 200, (∀ c ∈ cellsAt (shapeOf 5 0) pegGame.cur.x pegGame.cur.y,
        cellIndex c.1 c.2 ≠ j.val) → g'.board j = pegGame.board j) :=
  C6_lockPiece_four_cells pegGame 5 0 (by decide) rfl rfl (by decide)

/-- C7: for every board and every kind `k` in `0..6` drawn by the random source, `spawnPiece`
returns with the active piece of kind `k` in rotation 0 at `(3, 0)`; the 4 cells of that
placement are on the grid; if one of them is occupied every board cell is `0` afterwards,
and if none is the board is unchanged. -/
theorem C7_spawnPiece (g : Game) (k : Nat) (hk : k < 7) :
    ∃ g', spawnPiece g (k : Int) = some g' ∧ g'.cur = ⟨(k : Int), 0, 3, 0⟩ ∧
      (cellsAt (shapeOf k 0) 3 0).length = 4 ∧
      (∀ c ∈ cellsAt (shapeOf k 0) 3 0, inGrid c.1 c.2) ∧
      ((∃ c ∈ cellsAt (shapeOf k 0) 3 0, cellValue g.board c.1 c.2 ≠ 0) →
        ∀ j : Fin 200, g'.board j = 0) ∧
      ((∀ c ∈ cellsAt (shapeOf k 0) 3 0, cellValue g.board c.1 c.2 = 0) →
        g'.board = g.board) := by
  refine ⟨_, spawnPiece_eq g k hk, rfl, cellsAt_length hk 0 3 0, spawn_cells_inGrid hk, ?_, ?_⟩
  · intro h j
    simp only [if_pos h]
  · intro h
    have hn : ¬ ∃ c ∈ cellsAt (shapeOf k 0) 3 0, cellValue g.board c.1 c.2 ≠ 0 := by
      rintro ⟨c, hc, hv⟩
      exact hv (h c hc)
    simp only [if_neg hn]

/-- C7 at the board `stackBoard`, whose cell `(4, 0)` is occupied, and kind 4 (`Z`, spawn cells
`(3,0), (4,0), (4,1), (5,1)`): the board is cleared. -/
theorem C7_spawnPiece_witness :
    ∃ g', spawnPiece ⟨stackBoard, ⟨1, 0, 3, 0⟩⟩ ((4 : Nat) : Int) = some g' ∧
      g'.cur = ⟨((4 : Nat) : Int), 0, 3, 0⟩ ∧
      (∃ c ∈ cellsAt (shapeOf 4 0) 3 0, cellValue stackBoard c.1 c.2 ≠ 0) ∧
      ∀ j : Fin 200, g'.board j = 0 := by
  obtain ⟨g', h1, h2, -, -, h3, -⟩ := C7_spawnPiece ⟨stackBoard, ⟨1, 0, 3, 0⟩⟩ 4 (by decide)
  exact ⟨g', h1, h2, by decide, h3 (by decide)⟩

/-- C8: from `clearBoard(); spawnPiece()` and after any sequence of the calls the main loop
issues (left, right and down moves, rotation, and the gravity step with its lock, line clear and
spawn, for any kinds in `0..6`), the program has not panicked on an index, the active piece
does not collide, its 4 cells are on the grid on empty board cells, and `lockPiece` in that
state returns and writes on empty cells only. -/
theorem C8_active_piece_free (g0 : Game) (k0 : Nat) (hk0 : k0 < 7) (cs : List Call)
    (hok : ∀ c ∈ cs, c.ok = true) :
    ∃ g, (start g0 (k0 : Int)).bind (fun g1 => run g1 cs) = some g ∧
      collides g g.cur.x g.cur.y g.cur.trot = some false ∧
      ∃ k rot : Nat, k < 7 ∧ g.cur.kind = (k : Int) ∧ g.cur.trot = (rot : Int) ∧
        (cellsAt (shapeOf k rot) g.cur.x g.cur.y).length = 4 ∧
        (∀ c ∈ cellsAt (shapeOf k rot) g.cur.x g.cur.y,
          inGrid c.1 c.2 ∧ cellValue g.board c.1 c.2 = 0) ∧
        ∃ g', lockPiece g = some g' ∧
          ∀ j : Fin 200, g'.board j ≠ g.board j → g.board j = 0 ∧
            ∃ c ∈ cellsAt (shapeOf k rot) g.cur.x g.cur.y,
              inGrid c.1 c.2 ∧ cellIndex c.1 c.2 = j.val := by
  obtain ⟨g, hg, hs, -⟩ := reachable_inv g0 k0 hk0 cs hok
  obtain ⟨k, rot, hk, hkind, hrot, -, hfree⟩ := hs
  have hfree' := hfree
  rw [hrot] at hfree'
  have hcells := (collides_false_iff g k rot hk hkind g.cur.x g.cur.y).mp hfree'
  refine ⟨g, hg, hfree, k, rot, hk, hkind, hrot, cellsAt_length hk rot _ _, hcells,
    _, lockPiece_eq g k rot hk hkind hrot, ?_⟩
  intro j hj
  simp only [lockedBoard] at hj
  by_cases hex : ∃ c ∈ cellsAt (shapeOf k rot) g.cur.x g.cur.y,
      inGrid c.1 c.2 ∧ cellIndex c.1 c.2 = j.val
  · refine ⟨?_, hex⟩
    obtain ⟨c, hc, hgr, he⟩ := hex
    have hv := (hcells c hc).2
    rw [cellValue_eq _ hgr] at hv
    have hj' : (⟨cellIndex c.1 c.2, cellIndex_lt hgr⟩ : Fin 200) = j := Fin.ext he
    rw [hj'] at hv
    exact hv
  · rw [if_neg hex] at hj
    exact absurd rfl hj

/-- C8 for a start with an `O` piece followed by four calls. -/
theorem C8_active_piece_free_witness :
    ∃ g, (start bootGame ((1 : Nat) : Int)).bind
        (fun g1 => run g1 [Call.moveLeft, Call.rotate, Call.softDrop, Call.gravity 3]) = some g ∧
      collides g g.cur.x g.cur.y g.cur.trot = some false ∧
      ∃ k rot : Nat, k < 7 ∧ g.cur.kind = (k : Int) ∧ g.cur.trot = (rot : Int) ∧
        (cellsAt (shapeOf k rot) g.cur.x g.cur.y).length = 4 ∧
        (∀ c ∈ cellsAt (shapeOf k rot) g.cur.x g.cur.y,
          inGrid c.1 c.2 ∧ cellValue g.board c.1 c.2 = 0) ∧
        ∃ g', lockPiece g = some g' ∧
          ∀ j : Fin 200, g'.board j ≠ g.board j → g.board j = 0 ∧
            ∃ c ∈ cellsAt (shapeOf k rot) g.cur.x g.cur.y,
              inGrid c.1 c.2 ∧ cellIndex c.1 c.2 = j.val :=
  C8_active_piece_free bootGame 1 (by decide)
    [Call.moveLeft, Call.rotate, Call.softDrop, Call.gravity 3] (by decide)

/-- C9: with `len(colors) = 7`, if every cell of the board is below 7 then `clearBoard` and
`clearLines` return a board with every cell below 7, so does `lockPiece` whenever it returns
(and it returns for a kind in `0..6` with a rotation index `≥ 0`), and so does `spawnPiece` for
a kind `k` in `0..6`; and every board reached from the start of `main` by calls of the main
loop has every cell below 7. -/
theorem C9_cells_within_palette (g : Game) (hv : validBoard g.board) (k : Nat) (hk : k < 7)
    (g0 : Game) (cs : List Call) (hok : ∀ c ∈ cs, c.ok = true) :
    colors.length = 7 ∧
    (∃ b', clearBoard g.board = some b' ∧ validBoard b') ∧
    (∀ g', lockPiece g = some g' → validBoard g'.board) ∧
    (∀ rot : Nat, g.cur.kind = (k : Int) → g.cur.trot = (rot : Int) →
      ∃ g', lockPiece g = some g' ∧ validBoard g'.board) ∧
    (∃ b', clearLines g.board = some b' ∧ validBoard b') ∧
    (∃ g', spawnPiece g (k : Int) = some g' ∧ validBoard g'.board) ∧
    (∃ g', (start g0 (k : Int)).bind (fun g1 => run g1 cs) = some g' ∧
      validBoard g'.board) := by
  refine ⟨rfl, ⟨_, clearBoard_eq g.board, validBoard_zero⟩, ?_, ?_, validBoard_clearLines hv,
    ?_, ?_⟩
  · intro g' hg'
    obtain ⟨k1, r1, -, -, -, hb⟩ := lockPiece_some hg'
    rw [hb]
    exact validBoard_locked hv _ _
  · intro rot hkind hrot
    exact ⟨_, lockPiece_eq g k rot hk hkind hrot, validBoard_locked hv _ _⟩
  · obtain ⟨g', hg', -, hv'⟩ := validBoard_spawn hv k hk
    exact ⟨g', hg', hv'⟩
  · obtain ⟨g', hg', -, hv'⟩ := reachable_inv g0 k hk cs hok
    exact ⟨g', hg', hv'⟩

/-- C9 at the board `pegBoard`, kind 5 and a start followed by two calls. -/
theorem C9_cells_within_palette_witness :
    colors.length = 7 ∧
    (∃ b', clearBoard pegGame.board = some b' ∧ validBoard b') ∧
    (∀ g', lockPiece pegGame = some g' → validBoard g'.board) ∧
    (∀ rot : Nat, pegGame.cur.kind = ((5 : Nat) : Int) → pegGame.cur.trot = (rot : Int) →
      ∃ g', lockPiece pegGame = some g' ∧ validBoard g'.board) ∧
    (∃ b', clearLines pegGame.board = some b' ∧ validBoard b') ∧
    (∃ g', spawnPiece pegGame ((5 : Nat) : Int) = some g' ∧ validBoard g'.board) ∧
    (∃ g', (start bootGame ((5 : Nat) : Int)).bind
        (fun g1 => run g1 [Call.gravity 2, Call.moveRight]) = some g' ∧
      validBoard g'.board) :=
  C9_cells_within_palette pegGame
    (by intro j; show (if j.val = 22 then 1 else 0) < colors.length; split <;> decide)
    5 (by decide) bootGame [Call.gravity 2, Call.moveRight] (by decide)

/-- C10: on a board in which no row is full, `clearLines` returns a board each of whose 200
cells has the value it had before. -/
theorem C10_clearLines_noop (b : Board) (h : ∀ row ∈ rowsOf b, isFull row = false) :
    ∃ b', clearLines b = some b' ∧ ∀ j : Fin 200, b' j = b j :=
  ⟨b, clearLines_of_no_full b h, fun _ => rfl⟩

/-- C10 at the board `pegBoard`, which has no full row. -/
theorem C10_clearLines_noop_witness :
    ∃ b', clearLines pegBoard = some b' ∧ ∀ j : Fin 200, b' j = pegBoard j :=
  C10_clearLines_noop pegBoard (by decide)

/-! ## Input handling of `src/sample/main.go` -/

/-- The edge detection that the Tetris loop lacks is that of `runLoop` in the sample program:
there, started with `prevL = true`, the samples `[true, false, false, true, false]` make the
button act on passes 2 and 5 only. -/
theorem sample_runLoop_edge_triggered :
    runLoopFires true 1 [true, false, false, true, false] = [2, 5] := by
  decide

/-! ## Passes of the main loop -/

theorem run_append (cs cs' : List Call) (g : Game) :
    run g (cs ++ cs') = (run g cs).bind fun g1 => run g1 cs' := by
  simp only [run, List.foldlM_append, Option.bind_eq_bind]

/-- Running passes of the loop is running the calls they issue. -/
theorem ticks_run (ts : List Tick) : ∀ g : Game, ts.foldlM tick g = run g (ticksCalls ts) := by
  induction ts with
  | nil => intro g; rfl
  | cons t ts ih =>
    intro g
    rw [List.foldlM_cons, ticksCalls, run_append, tick]
    cases run g (tickCalls t) with
    | none => rfl
    | some g1 => exact ih g1

theorem tickCalls_ok (t : Tick) (h : 0 ≤ t.kind ∧ t.kind < 7) :
    ∀ c ∈ tickCalls t, c.ok = true := by
  intro c hc
  cases c with
  | gravity k =>
    have hk : k = t.kind := by
      simp only [tickCalls, List.mem_append] at hc
      rcases hc with (((hc | hc) | hc) | hc) | hc <;> split at hc <;> simp_all
    simp [Call.ok, hk, h]
  | _ => rfl

/-- Every state reached by passes of the main loop whose random kinds are in `0..6`: the
program has not panicked, the active piece is free and the board holds palette indices. -/
theorem ticks_inv (g0 : Game) (k0 : Nat) (hk0 : k0 < 7) (ts : List Tick)
    (hts : ∀ t ∈ ts, 0 ≤ t.kind ∧ t.kind < 7) :
    ∃ g, (start g0 (k0 : Int)).bind (fun g1 => ts.foldlM tick g1) = some g ∧ Safe g ∧
      validBoard g.board := by
  have hok : ∀ c ∈ ticksCalls ts, c.ok = true := by
    induction ts with
    | nil => intro c hc; exact absurd hc (List.not_mem_nil c)
    | cons t ts ih =>
      intro c hc
      rw [ticksCalls, List.mem_append] at hc
      rcases hc with hc | hc
      · exact tickCalls_ok t (hts t (List.mem_cons_self _ _)) c hc
      · exact ih (fun t' ht' => hts t' (List.mem_cons_of_mem _ ht')) c hc
  obtain ⟨g, hg, hs, hv⟩ := reachable_inv g0 k0 hk0 (ticksCalls ts) hok
  have hfun : (fun g1 => ts.foldlM tick g1) = fun g1 => run g1 (ticksCalls ts) :=
    funext (ticks_run ts)
  exact ⟨g, by rw [hfun]; exact hg, hs, hv⟩

/-! ## Machine integers -/

/-- Every entry of the piece table is an offset in `0..3`. -/
theorem offsets_small : ∀ rots ∈ pieces, ∀ shape ∈ rots, ∀ v ∈ shape, 0 ≤ v ∧ v ≤ 3 := by
  decide

/-- The sums `px + shape[i]` of `collides` and `lockPiece` may be read as exact integers: for a
machine `int` of `w ≥ 6` bits, a coordinate `v` in its range and a table offset `d`, the wrapped
sum passes a bounds test `0 ≤ · < n` (`n ≤ 20`) exactly when the exact sum does, and is then
equal to it. -/
theorem wrapInt_add_offset (w : Nat) (hw : 6 ≤ w) (v d n : Int) (hlo : -(2 ^ (w - 1)) ≤ v)
    (hhi : v < 2 ^ (w - 1)) (hd0 : 0 ≤ d) (hd3 : d ≤ 3) (hn : n ≤ 20) :
    ((0 ≤ wrapInt w (v + d) ∧ wrapInt w (v + d) < n) ↔ (0 ≤ v + d ∧ v + d < n)) ∧
    ((0 ≤ v + d ∧ v + d < n) → wrapInt w (v + d) = v + d) := by
  have hM : (32 : Int) ≤ 2 ^ (w - 1) := by
    have h1 : (2 : Int) ^ 5 ≤ 2 ^ (w - 1) := pow_le_pow_right₀ (by norm_num) (by omega)
    norm_num at h1
    exact h1
  have h2 : (2 : Int) ^ w = 2 * 2 ^ (w - 1) := by
    have : w = (w - 1) + 1 := by omega
    conv_lhs => rw [this, pow_succ]
    ring
  unfold wrapInt
  rw [h2]
  generalize (2 : Int) ^ (w - 1) = M at *
  by_cases hc : v + d < M
  · have he : (v + d + M) % (2 * M) = v + d + M :=
      Int.emod_eq_of_lt (by omega) (by omega)
    rw [he]
    constructor
    · constructor <;> intro h <;> omega
    · intro _; omega
  · have he : (v + d + M) % (2 * M) = v + d + M - 2 * M := by
      have h3 : v + d + M = (v + d - M) + 2 * M * 1 := by ring
      rw [h3, Int.add_mul_emod_self_left, Int.emod_eq_of_lt (by omega) (by omega)]
      ring
    rw [he]
    constructor
    · constructor <;> intro h <;> omega
    · intro _; omega

end Tetris
